import Mathlib

/-
Verification of the PDF outline extractor (main.py) against its specification.

The development shallowly embeds the program: text spans become a structure
mirroring the span dictionaries built by extract_text_elements, and each
stage of the pipeline (boilerplate filter, line assembly, per-line rule
engine, outline normalizer, font-size classifier, title detector) becomes an
executable Lean function translated from the corresponding lines of the
source.

Numeric scale: the source works with font sizes rounded to two decimals and
compares them against thresholds that are all multiples of 0.05 (0.1, 1.0,
1.5, 2.0, 10.0, 12.0, 14.0), and multiplies coordinates only by 1.5, 1.0,
0.15 and 0.85.  Sizes and coordinates are therefore embedded exactly as
integers in hundredths of a point (10.0pt = 1000), and every comparison of
the source is carried over with both sides scaled by the same positive
factor, which preserves it exactly: for instance abs(fs - ex) < 0.1 becomes
absZ (fs - ex) < 10, and y0 < page_height * 0.15 becomes
20 * y0 < 3 * pageHeight.
-/

namespace PDFOutline

/-- Heading levels as used throughout main.py. -/
inductive HLevel where
  | H1
  | H2
  | H3
deriving DecidableEq

/-- Numeric rank of a heading level, mirroring the lookups
of the form dict.get(level, 4) with H1, H2, H3 mapped to 1, 2, 3. -/
def rank : HLevel → ℕ
  | .H1 => 1
  | .H2 => 2
  | .H3 => 3

/-- An outline entry as appended by identify_headings (lines 422-427). -/
structure Entry where
  level : HLevel
  text : String
  page : ℤ
deriving DecidableEq

/-! ## OutlineNormalizer (main.py lines 429-456) -/

/-- The de-duplication test of the final loop (line 437): the current entry is
dropped when its text and page equal the previously appended entry's; before
any entry is appended the trackers hold the empty string and page -1
(lines 430-431). -/
def dropDup : Option Entry → Entry → Bool
  | none, e => e.text == "" && e.page == (-1 : ℤ)
  | some p, e => e.text == p.text && e.page == p.page

/-- The level-jump smoothing applied to the current entry relative to the
previously appended entry (lines 440-449).  Note that the demoting branch
tests only the level ranks, not the pages. -/
def smooth : Option Entry → Entry → Entry
  | none, e => e
  | some p, e =>
    if e.page = p.page ∧ rank e.level < rank p.level then e
    else if rank e.level > rank p.level + 1 ∧ p.level = .H1 ∧ e.level = .H3 then
      { e with level := .H2 }
    else e

/-- One pass of the normalization loop over the accepted candidates, threading
the previously appended entry (none while final_outline is empty). -/
def normAux (prev : Option Entry) : List Entry → List Entry
  | [] => []
  | e :: rest =>
    if dropDup prev e then normAux prev rest
    else
      let e' := smooth prev e
      e' :: normAux (some e') rest

/-- The OutlineNormalizer: consecutive (text, page) de-duplication interleaved
with H1-to-H3 level-jump smoothing, as in lines 429-456 of main.py. -/
def normalize (l : List Entry) : List Entry := normAux none l

/-- Characterization of lists that the normalization loop leaves unchanged
when started from a given previously-appended entry. -/
def goodFrom : Option Entry → List Entry → Prop
  | _, [] => True
  | prev, e :: rest => dropDup prev e = false ∧ smooth prev e = e ∧ goodFrom (some e) rest

/-- Relation forbidding an H1 entry immediately followed by an H3 entry. -/
def noSkip (a b : Entry) : Prop := ¬(a.level = .H1 ∧ b.level = .H3)

/-! ## FontSizeClassifier: determine_heading_font_map (main.py lines 56-118) -/

/-- Absolute value on integers, written out so that concrete inputs evaluate
by kernel reduction. -/
def absZ (x : ℤ) : ℤ := if x < 0 then -x else x

/-- Exclusion test with 0.1pt tolerance (10 hundredths), as used at lines 78,
97, 104 and 113: a size is excluded when it lies strictly within 0.1pt of the
excluded size. -/
def excludedSize (ex : Option ℤ) (fs : ℤ) : Bool :=
  match ex with
  | none => false
  | some e => decide (absZ (fs - e) < 10)

/-- State of the classifier: the insertion-ordered size-to-level map plus the
chosen H1/H2/H3 sizes (h1_fs, h2_fs, h3_fs in the source). -/
structure FMState where
  map : List (ℤ × HLevel)
  h1 : Option ℤ
  h2 : Option ℤ
  h3 : Option ℤ

/-- One iteration body of the main assignment pass (lines 81-89): the first
size becomes H1, a later size with a 2pt gap from H1 becomes H2, a yet later
size with a 1.5pt gap from H2 becomes H3. -/
def fmStep (fs : ℤ) (st : FMState) : FMState :=
  if st.h1.isNone then
    { st with map := st.map ++ [(fs, .H1)], h1 := some fs }
  else if st.h2.isNone ∧ st.h1.getD 0 - fs ≥ 200 then
    { st with map := st.map ++ [(fs, .H2)], h2 := some fs }
  else if st.h3.isNone ∧ st.h2.isSome ∧ st.h2.getD 0 - fs ≥ 150 then
    { st with map := st.map ++ [(fs, .H3)], h3 := some fs }
  else st

/-- The main assignment pass (lines 77-92): walk the significant sizes,
skip excluded ones, apply fmStep, and stop early once all three levels are
assigned (the break at lines 91-92). -/
def fmLoop (ex : Option ℤ) : List ℤ → FMState → FMState
  | [], st => st
  | fs :: rest, st =>
    if excludedSize ex fs then fmLoop ex rest st
    else
      let st' := fmStep fs st
      if st'.h1.isSome ∧ st'.h2.isSome ∧ st'.h3.isSome then st'
      else fmLoop ex rest st'

/-- H1 fallback walk (lines 96-100): assign H1 to the first non-excluded
significant size regardless of gaps. -/
def fbH1Go (ex : Option ℤ) (st : FMState) : List ℤ → FMState
  | [] => st
  | fs :: rest =>
    if excludedSize ex fs then fbH1Go ex st rest
    else { st with map := st.map ++ [(fs, .H1)], h1 := some fs }

/-- H1 fallback (lines 95-100), taken only when the main pass assigned nothing
to H1. -/
def fbH1 (ex : Option ℤ) (sig : List ℤ) (st : FMState) : FMState :=
  if st.h1.isNone then fbH1Go ex st sig else st

/-- H2 fallback walk (lines 103-109): the first size distinct from H1, not
excluded and strictly smaller than H1 becomes H2, the gap requirement dropped. -/
def fbH2Go (ex : Option ℤ) (st : FMState) : List ℤ → FMState
  | [] => st
  | fs :: rest =>
    if st.h1 = some fs ∨ excludedSize ex fs then fbH2Go ex st rest
    else if fs < st.h1.getD 0 then
      { st with map := st.map ++ [(fs, .H2)], h2 := some fs }
    else fbH2Go ex st rest

/-- H2 fallback (lines 102-109). -/
def fbH2 (ex : Option ℤ) (sig : List ℤ) (st : FMState) : FMState :=
  if st.h1.isSome ∧ st.h2.isNone then fbH2Go ex st sig else st

/-- H3 fallback walk (lines 112-118): the first size distinct from H1 and H2,
not excluded and strictly smaller than H2 becomes H3. -/
def fbH3Go (ex : Option ℤ) (st : FMState) : List ℤ → FMState
  | [] => st
  | fs :: rest =>
    if st.h1 = some fs ∨ st.h2 = some fs ∨ excludedSize ex fs then fbH3Go ex st rest
    else if fs < st.h2.getD 0 then
      { st with map := st.map ++ [(fs, .H3)], h3 := some fs }
    else fbH3Go ex st rest

/-- H3 fallback (lines 111-118). -/
def fbH3 (ex : Option ℤ) (sig : List ℤ) (st : FMState) : FMState :=
  if st.h2.isSome ∧ st.h3.isNone then fbH3Go ex st sig else st

/-- First-occurrence de-duplication walk, threading the sizes already seen. -/
def uniqFirstAux (seen : List ℤ) : List ℤ → List ℤ
  | [] => []
  | x :: xs => if x ∈ seen then uniqFirstAux seen xs else x :: uniqFirstAux (x :: seen) xs

/-- First-occurrence de-duplication of the observed font sizes, modelling the
set self.unique_font_sizes. -/
def uniqFirst (l : List ℤ) : List ℤ := uniqFirstAux [] l

/-- Descending sort of the distinct sizes, modelling sorted(..., reverse=True)
at line 61. -/
def sortDesc (l : List ℤ) : List ℤ := List.insertionSort (fun a b => b ≤ a) l

/-- The significant sizes: distinct observed sizes, sorted descending, at
least 10pt (lines 61-63). -/
def fmSig (sizes : List ℤ) : List ℤ :=
  (sortDesc (uniqFirst sizes)).filter (fun s => decide (1000 ≤ s))

/-- The classifier state after the main pass and all three fallbacks. -/
def fmFinal (sizes : List ℤ) (ex : Option ℤ) : FMState :=
  fbH3 ex (fmSig sizes) (fbH2 ex (fmSig sizes)
    (fbH1 ex (fmSig sizes) (fmLoop ex (fmSig sizes) ⟨[], none, none, none⟩)))

/-- FontSizeClassifier entry point, translating _determine_heading_font_map
(lines 56-118): on an empty significant list the map is left empty (the early
returns at lines 58-59 and 65-66), otherwise it is the map built by the main
pass and the fallbacks. -/
def determine_heading_font_map (sizes : List ℤ) (ex : Option ℤ) : List (ℤ × HLevel) :=
  if (fmSig sizes).isEmpty then [] else (fmFinal sizes ex).map

/-- Invariant tying the insertion-ordered map to the chosen sizes: each level
occurs in the map exactly for its chosen h-value, lower levels are only
occupied when the higher ones are, chosen sizes strictly decrease from H1 to
H3, and every key is a non-excluded member of the significant list. -/
structure FMInv (sig : List ℤ) (ex : Option ℤ) (st : FMState) : Prop where
  mem_h1 : ∀ k, (k, HLevel.H1) ∈ st.map → st.h1 = some k
  mem_h2 : ∀ k, (k, HLevel.H2) ∈ st.map → st.h2 = some k
  mem_h3 : ∀ k, (k, HLevel.H3) ∈ st.map → st.h3 = some k
  h1_mem : ∀ a, st.h1 = some a → (a, HLevel.H1) ∈ st.map
  h2_of_h1 : st.h1 = none → st.h2 = none
  h3_of_h2 : st.h2 = none → st.h3 = none
  lt_12 : ∀ a b, st.h1 = some a → st.h2 = some b → b < a
  lt_23 : ∀ b c, st.h2 = some b → st.h3 = some c → c < b
  key_sig : ∀ k l, (k, l) ∈ st.map → k ∈ sig
  key_excl : ∀ k l, (k, l) ∈ st.map → excludedSize ex k = false

/-! ## Text helpers

Python string operations and the specific regular expressions of main.py,
re-expressed as executable character-list functions.  Lowercasing and
whitespace are handled at ASCII level; the characters the rules inspect are
ASCII apart from bullets, dashes and the U+FB01 ligature, which Python's
lower()/strip() leave unchanged as well. -/

/-- ASCII whitespace, as stripped by str.strip() and matched by \s. -/
def isPySpace (c : Char) : Bool :=
  c == ' ' || c == '\t' || c == '\n' || c == '\r' || c == '\x0b' || c == '\x0c'

def pyStripChars (l : List Char) : List Char :=
  ((l.dropWhile isPySpace).reverse.dropWhile isPySpace).reverse

def pyStrip (s : String) : String := ⟨pyStripChars s.data⟩

/-- Number of whitespace-separated words, as len(s.split()). -/
def wordCountAux : Bool → List Char → ℕ
  | _, [] => 0
  | inWord, c :: rest =>
    if isPySpace c then wordCountAux false rest
    else (if inWord then 0 else 1) + wordCountAux true rest

def wordCountChars (l : List Char) : ℕ := wordCountAux false l

def wordCount (s : String) : ℕ := wordCountChars s.data

def pyLowerChar (c : Char) : Char :=
  if c.isUpper then Char.ofNat (c.toNat + 32) else c

def pyLower (s : String) : String := ⟨s.data.map pyLowerChar⟩

def pyUpperChar (c : Char) : Char :=
  if c.isLower then Char.ofNat (c.toNat - 32) else c

def pyUpper (s : String) : String := ⟨s.data.map pyUpperChar⟩

def startsWithChars : List Char → List Char → Bool
  | _, [] => true
  | [], _ :: _ => false
  | h :: hs, n :: ns => h == n && startsWithChars hs ns

/-- Substring search, modelling re.search of a literal or the in operator. -/
def containsSub : List Char → List Char → Bool
  | [], pat => startsWithChars [] pat
  | h :: t, pat => startsWithChars (h :: t) pat || containsSub t pat

def containsAnySub (l : List Char) (pats : List String) : Bool :=
  pats.any (fun p => containsSub l p.data)

def endsWithChar (c : Char) (l : List Char) : Bool :=
  match l.getLast? with
  | some d => d == c
  | none => false

def dropSpaces (l : List Char) : List Char := l.dropWhile isPySpace

/-- One-or-more whitespace (\s+), consumed greedily. -/
def parseSpaces1 : List Char → Option (List Char)
  | c :: rest => if isPySpace c then some (rest.dropWhile isPySpace) else none
  | [] => none

/-- One-or-more digits (\d+), consumed greedily. -/
def parseDigits1 : List Char → Option (List Char)
  | c :: rest => if c.isDigit then some (rest.dropWhile Char.isDigit) else none
  | [] => none

/-- A literal word. -/
def parseLit (l : List Char) (w : String) : Option (List Char) :=
  if startsWithChars l w.data then some (l.drop w.data.length) else none

def wordPage : String := "page"

def wordOf : String := "of"

/-- The regex ^[a-z]+\.[a-z]+@ searched at line 201; since the search pattern
is anchored, it is a prefix test.  The character classes are disjoint, so the
greedy runs are exact. -/
def emailStart (l : List Char) : Bool :=
  let r1 := l.dropWhile Char.isLower
  decide (l.takeWhile Char.isLower ≠ []) &&
    match r1 with
    | '.' :: r2 =>
      let r3 := r2.dropWhile Char.isLower
      decide (r2.takeWhile Char.isLower ≠ []) &&
        (match r3 with
         | '@' :: _ => true
         | _ => false)
    | _ => false

/-- The regex ^[a-z]\.[a-z]\. [a-z]+$ of line 203. -/
def initialsLine (l : List Char) : Bool :=
  match l with
  | a :: '.' :: b :: '.' :: ' ' :: rest =>
    a.isLower && b.isLower && decide (rest ≠ []) && rest.all Char.isLower
  | _ => false

/-- Fullmatch of ^\s*[\d\s\.\-—–]+\s*$ (line 209): nonempty and every
character a digit, whitespace, dot or dash. -/
def digitsSpacesDashes (l : List Char) : Bool :=
  decide (l ≠ []) &&
    l.all (fun c => c.isDigit || isPySpace c || c == '.' || c == '-' || c == '—' || c == '–')

/-- Fullmatch of ^\s*page\s+\d+\s+of\s+\d+\s*$ (line 210). -/
def pageXofY (l : List Char) : Bool :=
  match
    (((((parseLit (dropSpaces l) wordPage).bind parseSpaces1).bind parseDigits1).bind
      parseSpaces1).bind (fun r => parseLit r wordOf)).bind
      (fun r => (parseSpaces1 r).bind parseDigits1)
  with
  | some rest => (dropSpaces rest).isEmpty
  | none => false

/-- Fullmatch of ^\d+\s+page\s+\d+\s+of\s+\d+$ (line 211). -/
def nPageXofY (l : List Char) : Bool :=
  match
    ((((((parseDigits1 l).bind parseSpaces1).bind (fun r => parseLit r wordPage)).bind
      parseSpaces1).bind parseDigits1).bind
      (fun r => (parseSpaces1 r).bind (fun r2 => parseLit r2 wordOf))).bind
      (fun r => (parseSpaces1 r).bind parseDigits1)
  with
  | some rest => rest.isEmpty
  | none => false

/-- Fullmatch of ^\d+\s*:\s*\d+$ (line 212). -/
def digitsColonDigits (l : List Char) : Bool :=
  match parseDigits1 l with
  | some r1 =>
    (match dropSpaces r1 with
     | ':' :: r2 =>
       (match parseDigits1 (dropSpaces r2) with
        | some r3 => r3.isEmpty
        | none => false)
     | _ => false)
  | none => false

/-- Fullmatch of ^\s*[a-z]\d+:\s*$ (line 222). -/
def tagLetterDigitsColon (l : List Char) : Bool :=
  match dropSpaces l with
  | c :: rest =>
    c.isLower &&
      (match parseDigits1 rest with
       | some r2 =>
         (match r2 with
          | ':' :: r3 => r3.all isPySpace
          | _ => false)
       | none => false)
  | [] => false

/-- Fullmatch of ^\s*[0-9\(\)\.,\-\–:]+\s*$ (line 223). -/
def numericSymbolRun (l : List Char) : Bool :=
  let m := dropSpaces l
  let isCl : Char → Bool := fun c =>
    c.isDigit || c == '(' || c == ')' || c == '.' || c == ',' || c == '-' || c == '–' || c == ':'
  decide (m.takeWhile isCl ≠ []) && (m.dropWhile isCl).all isPySpace

/-- Fullmatch of ^\s*[a-z]\d+\s*$ (line 224). -/
def tagLetterDigits (l : List Char) : Bool :=
  match dropSpaces l with
  | c :: rest =>
    c.isLower &&
      (match parseDigits1 rest with
       | some r2 => r2.all isPySpace
       | none => false)
  | [] => false

/-! ## Spans, page geometry, BoilerplateFilter and LineAssembler
(main.py lines 174-236) -/

/-- A text span as produced by extract_text_elements (lines 38-49): the text
is stripped by the extractor, the font size is rounded to two decimals (here
an integer in hundredths of a point), the style flags come from the font
name or the flag bits, and the bounding box and line extents are page
coordinates (also in hundredths of a point).  The page number is 1-based. -/
structure Span where
  text : String
  font_size : ℤ
  is_bold : Bool
  is_italic : Bool
  x0 : ℤ
  y0 : ℤ
  x1 : ℤ
  y1 : ℤ
  page : ℤ
  line_y0 : ℤ
  line_y1 : ℤ
  line_x0 : ℤ
  line_x1 : ℤ
deriving DecidableEq

/-- Height of the page box (lines 182-186): the union of the span bounding
boxes, so max y1 minus min y0. -/
def pageHeightOf (els : List Span) : ℤ :=
  match els with
  | [] => 0
  | e :: rest =>
    rest.foldl (fun acc s => max acc s.y1) e.y1 -
      rest.foldl (fun acc s => min acc s.y0) e.y0

/-- Top-15% test (line 196): line_y0 < page_height * 0.15, cross-multiplied. -/
def isTopOfPage (pageH y0 : ℤ) : Bool := decide (20 * y0 < 3 * pageH)

/-- Bottom-15% test (line 197): line_y1 > page_height * 0.85, cross-multiplied. -/
def isBottomOfPage (pageH y1 : ℤ) : Bool := decide (20 * y1 > 17 * pageH)

/-- BoilerplateFilter (lines 189-225): true when the element is dropped by
one of the continue statements before line grouping. -/
def isBoilerplate (pageH : ℤ) (el : Span) : Bool :=
  let lower := (pyLower el.text).data
  let stripped := pyStripChars el.text.data
  let top := isTopOfPage pageH el.line_y0
  let bottom := isBottomOfPage pageH el.line_y1
  containsAnySub lower ["http://", "https://", "www.", "@"] ||
  (decide (el.font_size < 1200) && (top || bottom) &&
    (emailStart lower ||
     containsAnySub lower ["department of", "university", "institute", "college"] ||
     initialsLine lower ||
     containsAnySub lower ["res math sci", "journal of", "proceedings of", "math sci"] ||
     containsAnySub lower ["h. t. ha, a. van tuyl", "h. t. hà, a. van tuyl"])) ||
  (((digitsSpacesDashes el.text.data && decide (el.text.data.length < 10)) ||
    pageXofY lower ||
    nPageXofY lower ||
    digitsColonDigits lower ||
    (decide (stripped ≠ []) && stripped.all Char.isDigit)) && (top || bottom)) ||
  (decide (el.font_size < 1400) && decide (wordCount el.text < 5) &&
    pyUpper (pyStrip el.text) == "RESEARCH" && top) ||
  tagLetterDigitsColon lower || numericSymbolRun lower || tagLetterDigits lower

/-- LineAssembler walk (lines 228-236): a new line starts when line_y0 moves
by more than 0.1pt from the running value, which starts at -1 (here -100
hundredths); the initial empty temp list is appended on the first new line,
exactly as in the source. -/
def assembleAux (curY : ℤ) (temp : List Span) : List Span → List (List Span)
  | [] => if temp.isEmpty then [] else [temp]
  | e :: rest =>
    if absZ (e.line_y0 - curY) > 10 then
      temp :: assembleAux e.line_y0 [e] rest
    else
      assembleAux curY (temp ++ [e]) rest

def assembleLines (els : List Span) : List (List Span) := assembleAux (-100) [] els

/-! ## HeadingClassifier per-line machinery (main.py lines 238-427) -/

/-- Space-join of strings, as str.join with a single space. -/
def joinSpace : List String → String
  | [] => ""
  | [s] => s
  | s :: rest => s ++ " " ++ joinSpace rest

/-- The assembled line text (line 239): space-join of the non-empty span
texts, stripped. -/
def fullLineText (spans : List Span) : String :=
  pyStrip (joinSpace (spans.filterMap (fun s => if s.text == "" then none else some s.text)))

/-- Occurrences of a size in the line. -/
def countZ (x : ℤ) : List ℤ → ℕ
  | [] => 0
  | y :: rest => (if y == x then 1 else 0) + countZ x rest

def mostCommonAux (sizes : List ℤ) : List ℤ → ℤ → ℕ → ℤ
  | [], best, _ => best
  | c :: rest, best, bestCount =>
    if countZ c sizes > bestCount then mostCommonAux sizes rest c (countZ c sizes)
    else mostCommonAux sizes rest best bestCount

/-- Counter(line_font_sizes).most_common(1)[0][0] (line 248): the most
frequent size, ties resolved in favour of the first encountered, and 0 for an
empty line. -/
def mostCommonFontSize (spans : List Span) : ℤ :=
  let sizes := spans.map (fun s => s.font_size)
  match uniqFirst sizes with
  | [] => 0
  | c :: rest => mostCommonAux sizes rest c (countZ c sizes)

/-- Font-map rule (lines 259-262): the first mapped size within 1.0pt (100
hundredths) of the line's most common size, in map insertion order. -/
def findFontLevel (map : List (ℤ × HLevel)) (mc : ℤ) : Option HLevel :=
  match map with
  | [] => none
  | (fs, lvl) :: rest => if absZ (mc - fs) ≤ 100 then some lvl else findFontLevel rest mc

/-- The page number used for the line (line 253): the first span's page. -/
def headPage : List Span → ℤ
  | [] => 0
  | s :: _ => s.page

/-- The bounding-box bottom of the line's last span (line 364). -/
def lastY1 : List Span → ℤ
  | [] => 0
  | [s] => s.y1
  | _ :: rest => lastY1 rest

/-- Per-line classification state: is_potential_heading, level_candidate and
text_to_classify. -/
structure LState where
  potential : Bool
  level : Option HLevel
  text : String
deriving DecidableEq

/-- The rank lookup dict.get(level_candidate, 4) with None mapped to 4. -/
def rankO : Option HLevel → ℕ
  | none => 4
  | some l => rank l

/-- Step 1, the font-map rule (lines 255-265): text_to_classify starts as the
full line text and the level candidate comes from the font map. -/
def fontStage (map : List (ℤ × HLevel)) (mc : ℤ) (full : String) : LState :=
  let lvl := findFontLevel map mc
  ⟨lvl.isSome, lvl, full⟩

/-- The leading digit-dot run of the text. -/
def digitDotRun (l : List Char) : List Char := l.takeWhile (fun c => c.isDigit || c == '.')

/-- No two consecutive dots. -/
def noDoubleDot : List Char → Bool
  | '.' :: '.' :: _ => false
  | _ :: rest => noDoubleDot rest
  | [] => true

/-- Shape of the regex group ((\d+\.)+\d*|\d+) on a digit-dot run: nonempty,
first character a digit, and no two consecutive dots. -/
def validNumRun (r : List Char) : Bool :=
  match r with
  | [] => false
  | c :: _ => c.isDigit && noDoubleDot r

/-- The numbering match of line 267, ^((\d+\.)+\d*|\d+)\s+.*$, with its
group.  Whitespace cannot occur inside the digit-dot run, so the group is
the maximal run, and the character following it must be whitespace. -/
def numericGroup (l : List Char) : Option (List Char) :=
  let run := digitDotRun l
  match l.drop run.length with
  | c :: _ => if validNumRun run && isPySpace c then some run else none
  | [] => none

/-- The alpha match of line 268, ^[A-Z]\.\s+.*$. -/
def alphaMatch (l : List Char) : Bool :=
  match l with
  | a :: '.' :: c :: _ => a.isUpper && isPySpace c
  | _ => false

/-- The bullet match of line 269, ^[•\*\-]\s*.*$. -/
def bulletMatch (l : List Char) : Bool :=
  match l with
  | c :: _ => c == '•' || c == '*' || c == '-'
  | [] => false

/-- The citation-comma rejection of line 273,
^((\d+\.)+\d*|\d+|[A-Z])\s*,\s*.*$. -/
def commaReject (l : List Char) : Bool :=
  let run := digitDotRun l
  if validNumRun run then
    match dropSpaces (l.drop run.length) with
    | ',' :: _ => true
    | _ => false
  else
    match l with
    | a :: rest =>
      a.isUpper &&
        (match dropSpaces rest with
         | ',' :: _ => true
         | _ => false)
    | [] => false

/-- Number of '.'-separated parts of the matched group (line 279). -/
def splitDotCount : List Char → ℕ
  | [] => 1
  | '.' :: rest => 1 + splitDotCount rest
  | _ :: rest => splitDotCount rest

/-- Step 2, the numbering rule (lines 267-285). -/
def numericAlphaStage (l : List Char) (st : LState) : LState :=
  let numg := numericGroup l
  let alpha := alphaMatch l
  if numg.isSome || alpha then
    if commaReject l then { st with potential := false }
    else if wordCountChars l > 20 then { st with potential := false }
    else
      match numg with
      | some g =>
        let parts := splitDotCount g
        if parts == 3 then { st with potential := true, level := some .H3 }
        else if parts == 2 then { st with potential := true, level := some .H2 }
        else if parts == 1 then { st with potential := true, level := some .H1 }
        else { st with potential := true }
      | none =>
        if st.level.isNone || decide (rankO st.level > 1) then
          { st with potential := true, level := some .H1 }
        else { st with potential := true }
  else st

/-- Step 3, the bullet rule (lines 287-290). -/
def bulletStage (bullet : Bool) (st : LState) : LState :=
  if bullet then
    if st.level.isNone || decide (rankO st.level > 3) then
      { st with potential := true, level := some .H3 }
    else { st with potential := true }
  else st

/-- Scan of the bold prefix (lines 294-319): accumulate bold span texts; at
the first accumulation whose strip ends in a colon, fire when the next span
is non-bold or the line ends there; hitting a non-bold span earlier aborts. -/
def boldScanAux (acc : List Char) : List Span → Option (List Char)
  | [] => none
  | s :: rest =>
    if s.is_bold then
      let acc2 := acc ++ s.text.data
      if endsWithChar ':' (pyStripChars acc2) then
        match rest with
        | [] => some (pyStripChars acc2)
        | t :: _ => if t.is_bold then boldScanAux acc2 rest else some (pyStripChars acc2)
      else boldScanAux acc2 rest
    else none

/-- The bold-prefix-colon detection (lines 292-300): requires a non-empty
line whose first span is bold. -/
def boldPfx (spans : List Span) : Option (List Char) :=
  match spans with
  | [] => none
  | s :: _ => if s.is_bold then boldScanAux [] spans else none

/-- Step 4, the bold-prefix-colon rule (lines 292-319); the Bool is
bold_prefix_match. -/
def boldPfxStage (spans : List Span) (bullet : Bool) (st : LState) : LState × Bool :=
  match boldPfx spans with
  | none => (st, false)
  | some pfx =>
    if bullet then ({ potential := true, level := some .H3, text := ⟨pfx⟩ }, true)
    else if st.level.isNone || decide (rankO st.level > 2) then
      ({ potential := true, level := some .H2, text := ⟨pfx⟩ }, true)
    else ({ st with potential := true, text := ⟨pfx⟩ }, true)

/-- Index of the first colon, str.find(':') (line 323). -/
def colonIdx : List Char → Option ℕ
  | [] => none
  | c :: rest => if c == ':' then some 0 else (colonIdx rest).map (· + 1)

/-- The new-item test of lines 328 and 368,
^((\d+\.)+\d*|\d+|[A-Z]|[•\*\-])\s*.*$: since the tail matches anything, it
holds exactly when the first character is a digit, an uppercase letter or a
bullet character. -/
def startsItemish (l : List Char) : Bool :=
  match l with
  | c :: _ => c.isDigit || c.isUpper || c == '•' || c == '*' || c == '-'
  | [] => false

/-- Step 5, the colon-split rule (lines 321-332); the Bool is
text_colon_match. -/
def colonStage (full : List Char) (st : LState) : LState × Bool :=
  if st.potential then (st, false)
  else
    match colonIdx full with
    | none => (st, false)
    | some i =>
      let pre := pyStripChars (full.take i)
      if decide (wordCountChars pre < 10) && decide (full.length > i + 1) then
        let post := pyStripChars (full.drop (i + 1))
        if startsItemish post then (st, false)
        else ({ potential := true, level := some .H3, text := ⟨pre ++ [':']⟩ }, true)
      else (st, false)

/-- The keyword alternation of lines 336-339.  The source spells the second
keyword with the U+FB01 ligature (deﬁnition), matching text extracted with
ligatures preserved; the plain ASCII spelling does not match. -/
def kwList : List String :=
  ["theorem", "deﬁnition", "remark", "example", "conjecture", "lemma", "proof"]

def dropKw : List String → List Char → Option (List Char)
  | [], _ => none
  | kw :: rest, l =>
    if startsWithChars l kw.data then some (l.drop kw.data.length) else dropKw rest l

/-- Match of any of the three keyword patterns of lines 337-339 against a
text: keyword then whitespace and a digit, keyword then optional whitespace
and a colon, or keyword followed only by whitespace. -/
def kwMatches (l : List Char) : Bool :=
  match dropKw kwList l with
  | none => false
  | some r =>
    (match parseSpaces1 r with
     | some r2 =>
       (match r2 with
        | c :: _ => c.isDigit
        | [] => false)
     | none => false) ||
    (match dropSpaces r with
     | ':' :: _ => true
     | _ => false) ||
    r.all isPySpace

/-- Step 6, the keyword rule (lines 334-348).  The text the patterns are
matched against is the caller-supplied tl, the stale text_lower variable;
the retained display text is the full line text.  The Bool is
keyword_match. -/
def keywordStage (tl : List Char) (full : String) (anyB anyI : Bool) (words : ℕ)
    (st : LState) : LState × Bool :=
  if st.potential then (st, false)
  else if kwMatches tl && (anyB || anyI || decide (words < 15)) then
    ({ potential := true, level := some .H3, text := full }, true)
  else (st, false)

/-- Step 8, the bullet-lookahead demotion (lines 356-369): an H3 bullet
candidate longer than 60 characters is rejected, as is one whose next line
starts close beneath it, has no bold span and does not look like a new
item.  Assembled lines after the first are never empty, so the head pattern
of the next line is total in practice. -/
def bulletLookahead (bullet : Bool) (spans : List Span) (next : Option (List Span))
    (mc : ℤ) (st : LState) : LState :=
  if bullet && decide (st.level = some HLevel.H3) then
    let st2 := if st.text.data.length > 60 then { st with potential := false } else st
    if st2.potential then
      match next with
      | some (n0 :: nrest) =>
        let nextText := fullLineText (n0 :: nrest)
        if decide (n0.line_y0 - lastY1 spans < mc) &&
           !((n0 :: nrest).any (fun s => s.is_bold)) &&
           !(startsItemish nextText.data) then
          { st2 with potential := false }
        else st2
      | some [] => st2
      | none => st2
    else st2
  else st

/-- Step 7, the acceptance filters (lines 374-383), applied only when none of
the bold-prefix, colon-split and keyword rules fired. -/
def acceptFilter (anyB numgB alpha bullet : Bool) (mc : ℤ) (st : LState) : LState :=
  let endsPeriod := endsWithChar '.' st.text.data
  let st2 :=
    if !anyB && !(numgB || alpha || bullet) && decide (mc < 1200) then
      { st with potential := false }
    else st
  if st2.potential && endsPeriod && !(numgB || alpha) && decide (mc < 1400) && !anyB then
    { st2 with potential := false }
  else st2

/-- Concatenation of the leading bold spans' texts (lines 402-411). -/
def boldSegment : List Span → List Char
  | [] => []
  | s :: rest => if s.is_bold then s.text.data ++ boldSegment rest else []

/-- Step 9, the all-bold fallback (lines 385-420), evaluated only when no
heading was accepted but the line contains bold text. -/
def allBoldFallback (spans : List Span) (full : List Char) (bpm : Bool)
    (st : LState) : LState :=
  if spans.all (fun s => s.is_bold) then
    if decide (full.length < 150) && !(endsWithChar '.' full) then
      { st with potential := true, level := some .H3 }
    else if decide (full.length < 50) && endsWithChar '.' full then
      { st with potential := true, level := some .H3 }
    else st
  else if !bpm then
    match spans with
    | s0 :: _ =>
      if s0.is_bold then
        let seg := boldSegment spans
        if decide (seg.length > 0) && spans.any (fun s => !s.is_bold) &&
           decide (wordCountChars seg < 10) &&
           (!(endsWithChar '.' (pyStripChars seg)) || decide (seg.length < 30)) then
          { potential := true, level := some .H3, text := ⟨pyStripChars seg⟩ }
        else st
      else st
    | [] => st
  else st

/-- The classifier state after steps 1-3 (font map, numbering, bullet),
before the bold-prefix rule. -/
def preBoldState (map : List (ℤ × HLevel)) (spans : List Span) : LState :=
  bulletStage (bulletMatch (fullLineText spans).data)
    (numericAlphaStage (fullLineText spans).data
      (fontStage map (mostCommonFontSize spans) (fullLineText spans)))

/-- Step 4 applied to the stage-3 state: the bold-prefix-colon rule's
resulting state and its bold_prefix_match flag. -/
def boldPfxPair (map : List (ℤ × HLevel)) (spans : List Span) : LState × Bool :=
  boldPfxStage spans (bulletMatch (fullLineText spans).data) (preBoldState map spans)

/-- Step 5 applied on top: the colon-split rule's resulting state and its
text_colon_match flag; the state component is the classifier state after
steps 1-5, before the keyword rule. -/
def colonPair (map : List (ℤ × HLevel)) (spans : List Span) : LState × Bool :=
  colonStage (fullLineText spans).data (boldPfxPair map spans).1

/-- Step 6 applied on top: the keyword rule's resulting state and its
keyword_match flag. -/
def keywordPair (map : List (ℤ × HLevel)) (tl : String) (spans : List Span) :
    LState × Bool :=
  keywordStage tl.data (fullLineText spans) (spans.any (fun s => s.is_bold))
    (spans.any (fun s => s.is_italic)) (wordCount (fullLineText spans))
    (colonPair map spans).1

/-- Steps 1-6 of the rule engine: the state together with the
bold_prefix_match, text_colon_match and keyword_match flags. -/
def lineStage6 (map : List (ℤ × HLevel)) (tl : String) (spans : List Span) :
    LState × Bool × Bool × Bool :=
  ((keywordPair map tl spans).1, (boldPfxPair map spans).2, (colonPair map spans).2,
    (keywordPair map tl spans).2)

/-- Steps 7-8 (lines 355-383): the bullet-lookahead demotion followed by the
acceptance filters, the latter skipped when the bold-prefix, colon-split or
keyword rule fired; nothing runs when the line is not a potential heading. -/
def lineStage7 (map : List (ℤ × HLevel)) (tl : String) (spans : List Span)
    (next : Option (List Span)) : LState :=
  if (lineStage6 map tl spans).1.potential then
    if (lineStage6 map tl spans).2.1 || (lineStage6 map tl spans).2.2.1 ||
        (lineStage6 map tl spans).2.2.2 then
      bulletLookahead (bulletMatch (fullLineText spans).data) spans next
        (mostCommonFontSize spans) (lineStage6 map tl spans).1
    else
      acceptFilter (spans.any (fun s => s.is_bold))
        (numericGroup (fullLineText spans).data).isSome
        (alphaMatch (fullLineText spans).data) (bulletMatch (fullLineText spans).data)
        (mostCommonFontSize spans)
        (bulletLookahead (bulletMatch (fullLineText spans).data) spans next
          (mostCommonFontSize spans) (lineStage6 map tl spans).1)
  else (lineStage6 map tl spans).1

/-- Step 9 on top (lines 385-420): the all-bold fallback, evaluated only
when no heading was accepted so far but the line contains bold text. -/
def lineStage8 (map : List (ℤ × HLevel)) (tl : String) (spans : List Span)
    (next : Option (List Span)) : LState :=
  if !(lineStage7 map tl spans next).potential && spans.any (fun s => s.is_bold) then
    allBoldFallback spans (fullLineText spans).data (lineStage6 map tl spans).2.1
      (lineStage7 map tl spans next)
  else lineStage7 map tl spans next

/-- HeadingClassifier for one assembled line (lines 238-427).  tl is the
lowercased text of the page's last raw element — the text_lower variable left
over from the element loop at line 190, which the keyword rule at line 342
reads — and next is the following assembled line used by the bullet
lookahead.  The result is the outline entry appended at lines 422-427, or
none. -/
def classifyLine (map : List (ℤ × HLevel)) (tl : String) (spans : List Span)
    (next : Option (List Span)) : Option Entry :=
  if fullLineText spans == "" then none
  else
    let st8 := lineStage8 map tl spans next
    match st8.level with
    | some lvl => if st8.potential then some ⟨lvl, st8.text, headPage spans⟩ else none
    | none => none

/-- Classification of the assembled lines of one page in order, each with its
one-line lookahead (the enumerate loop at line 238). -/
def classifyLines (map : List (ℤ × HLevel)) (tl : String) : List (List Span) → List Entry
  | [] => []
  | l :: rest =>
    match classifyLine map tl l rest.head? with
    | some e => e :: classifyLines map tl rest
    | none => classifyLines map tl rest

/-- Text of the last raw element of a page. -/
def lastSpanText : List Span → String
  | [] => ""
  | [s] => s.text
  | _ :: rest => lastSpanText rest

/-- Per-page processing inside identify_headings (lines 174-427): the page
box is computed from the raw elements, boilerplate spans are filtered,
survivors are grouped into lines, and each line is classified.  The string
handed to the keyword rule is the lowercased text of the page's last raw
element, mirroring the stale text_lower variable. -/
def classifyPage (map : List (ℤ × HLevel)) (page : List Span) : List Entry :=
  match page with
  | [] => []
  | _ =>
    let pageH := pageHeightOf page
    let kept := page.filter (fun el => !isBoilerplate pageH el)
    classifyLines map (pyLower (lastSpanText page)) (assembleLines kept)

/-- identify_headings (lines 170-456): classify every page's lines in
reading order, accumulate the candidates, and normalize them. -/
def identify_headings (map : List (ℤ × HLevel)) (pages : List (List Span)) : List Entry :=
  normalize (pages.map (classifyPage map)).flatten

/-! ## TitleDetector and per-document flow
(main.py lines 15-54, 121-167, 458-522) -/

/-- A rectangle (x0, y0, x1, y1) in hundredths of a point. -/
structure Rect where
  x0 : ℤ
  y0 : ℤ
  x1 : ℤ
  y1 : ℤ
deriving DecidableEq

def spanRect (s : Span) : Rect := ⟨s.x0, s.y0, s.x1, s.y1⟩

/-- Rectangle union, modelling the |= operator on fitz rectangles. -/
def rectUnion (a b : Rect) : Rect :=
  ⟨min a.x0 b.x0, min a.y0 b.y0, max a.x1 b.x1, max a.y1 b.y1⟩

/-- Maximum font size on the first page (lines 128-131), starting from 0. -/
def maxFontSize (els : List Span) : ℤ :=
  els.foldl (fun acc e => if e.font_size > acc then e.font_size else acc) 0

/-- Stable insertion by bbox top, modelling list.sort(key=bbox y0) at
line 144. -/
def insertByY0 (e : Span) : List Span → List Span
  | [] => [e]
  | x :: xs => if e.y0 ≤ x.y0 then e :: x :: xs else x :: insertByY0 e xs

def sortByY0 (l : List Span) : List Span := l.foldr insertByY0 []

/-- The greedy title merge (lines 146-159): keep adding elements while each
next element's top starts within 1.5 times its font size of the previous
element's bottom (cross-multiplied by 2), accumulating texts and the box. -/
def titleMergeAux (lastBottom : ℤ) (bbox : Rect) (acc : List String) :
    List Span → List String × Rect
  | [] => (acc, bbox)
  | e :: rest =>
    if 2 * (e.y0 - lastBottom) < 3 * e.font_size then
      titleMergeAux e.y1 (rectUnion bbox (spanRect e)) (acc ++ [e.text]) rest
    else (acc, bbox)

def titleMerge : List Span → List String × Option Rect
  | [] => ([], none)
  | e :: rest =>
    let r := titleMergeAux e.y1 (spanRect e) [e.text] rest
    (r.1, some r.2)

/-- identify_document_title (lines 121-167): the maximum first-page font
size, the spans within 0.1pt of it sorted by vertical position, and the
greedy contiguous merge; empty or zero-size pages give the default title. -/
def identify_document_title (pages : List (List Span)) :
    String × Option ℤ × Option Rect :=
  match pages with
  | [] => ("Untitled Document", none, none)
  | firstPage :: _ =>
    if firstPage.isEmpty then ("Untitled Document", none, none)
    else
      let maxFS := maxFontSize firstPage
      if maxFS = 0 then ("Untitled Document", none, none)
      else
        let cands := firstPage.filter (fun e => absZ (e.font_size - maxFS) < 10)
        if cands.isEmpty then ("Untitled Document", none, none)
        else
          let m := titleMerge (sortByY0 cands)
          let t := pyStrip (joinSpace m.1)
          (if t == "" then "Untitled Document" else t, some maxFS, m.2)

/-- Outcome of asking the span source to open a document: the open/parse
failure caught at lines 17-21, or the per-page span lists. -/
inductive SourceResult where
  | openError
  | ok (pages : List (List Span))

/-- extract_text_elements (lines 15-54): an open/parse failure is printed
and yields the empty list — no exception propagates — and otherwise the
external span source produces the per-page spans. -/
def extract_text_elements : SourceResult → List (List Span)
  | .openError => []
  | .ok pages => pages

/-- The font sizes accumulated into self.unique_font_sizes during
extraction (line 36), before any title filtering. -/
def uniqueFontSizes (pages : List (List Span)) : List ℤ :=
  (pages.map (fun p => p.map (fun s => s.font_size))).flatten

/-- Intersection test on ordinary finite rectangles, modelling the external
library's Rect.intersects at line 473. -/
def rectIntersects (a b : Rect) : Bool :=
  decide (max a.x0 b.x0 < min a.x1 b.x1) && decide (max a.y0 b.y0 < min a.y1 b.y1)

/-- Containment of b in a, modelling the external library's containment test
named at line 474. -/
def rectAlmostContains (a b : Rect) : Bool :=
  decide (a.x0 ≤ b.x0) && decide (a.y0 ≤ b.y0) && decide (b.x1 ≤ a.x1) &&
    decide (b.y1 ≤ a.y1)

/-- The title-span exclusion over the first page only (lines 465-479). -/
def filterTitlePage (pages : List (List Span)) (titleFS : Option ℤ) (tb : Rect) :
    List (List Span) :=
  match pages with
  | [] => []
  | first :: rest =>
    (first.filter (fun el =>
      !rectIntersects (spanRect el) tb ||
      (decide (absZ (el.font_size - titleFS.getD 0) > 10) &&
        !rectAlmostContains (spanRect el) tb))) :: rest

/-- The per-document output artifact (lines 486-489 and the JSON written at
lines 515-517). -/
structure OutlineDoc where
  title : String
  outline : List Entry
deriving DecidableEq

/-- process_pdf (lines 458-489): extraction (degrading to no pages on an
open error), title detection, title-span exclusion when a title box exists,
font-map determination over the pre-filter sizes with the title size
excluded, and heading identification.  It always returns an artifact. -/
def process_pdf (r : SourceResult) : OutlineDoc :=
  let pages := extract_text_elements r
  let t := identify_document_title pages
  let pages2 :=
    if t.1 == "" then pages
    else
      match t.2.2 with
      | some tb => filterTitlePage pages t.2.1 tb
      | none => pages
  let map := determine_heading_font_map (uniqueFontSizes pages) t.2.1
  ⟨t.1, identify_headings map pages2⟩

/-- The batch loop of main (lines 506-522): every listed document is
processed and one output artifact is written for it. -/
def mainBatch (docs : List SourceResult) : List OutlineDoc :=
  docs.map process_pdf

/-- A bullet-prefixed line whose single leading bold span exceeds 60
characters and ends in a colon, followed by a non-bold span. -/
def bulletColonSpan : Span :=
  ⟨"• Important note about the following items in this long list here:", 1100, true, false,
    100, 7000, 800, 7200, 1, 7000, 7200, 100, 800⟩

def bulletBodySpan : Span :=
  ⟨"and this is the rest", 1100, false, false, 820, 7000, 2000, 7200, 1, 7000, 7200, 100, 2000⟩

/-- The bold-prefix-colon scenario line: a bold "Background:" span followed
by non-bold body text. -/
def boldColonSpan : Span :=
  ⟨"Background:", 1100, true, false, 100, 7000, 800, 7200, 1, 7000, 7200, 100, 800⟩

def plainRestSpan : Span :=
  ⟨"This paper studies", 1100, false, false, 820, 7000, 2000, 7200, 1, 7000, 7200, 100, 2000⟩

/-- A line starting with the ASCII keyword followed by a numeric tag,
italic, under 15 words. -/
def asciiDefinitionSpan : Span :=
  ⟨"definition 2.4 main result", 1100, false, true, 100, 7000, 800, 7200, 1,
    7000, 7200, 100, 800⟩

def asciiKeyword : String := "definition"

/-- The same line with the keyword spelled using the ligature, as in the
source patterns. -/
def ligatureDefinitionSpan : Span :=
  ⟨"deﬁnition 2.4", 1100, false, true, 100, 7000, 800, 7200, 1, 7000, 7200, 100, 800⟩

theorem smooth_none (e : Entry) : smooth none e = e := rfl

theorem smooth_some (p e : Entry) :
    smooth (some p) e =
      if e.page = p.page ∧ rank e.level < rank p.level then e
      else if rank e.level > rank p.level + 1 ∧ p.level = .H1 ∧ e.level = .H3 then
        { e with level := .H2 }
      else e := rfl

theorem smooth_text (p : Option Entry) (e : Entry) : (smooth p e).text = e.text := by
  cases p with
  | none => rfl
  | some q => rw [smooth_some]; split_ifs <;> rfl

theorem smooth_page (p : Option Entry) (e : Entry) : (smooth p e).page = e.page := by
  cases p with
  | none => rfl
  | some q => rw [smooth_some]; split_ifs <;> rfl

/-- Re-running one normalization step on an already-normalized entry changes
nothing: the possibly demoted entry is a fixed point of smoothing against the
same predecessor. -/
theorem smooth_idem (p : Option Entry) (e : Entry) :
    smooth p (smooth p e) = smooth p e := by
  cases p with
  | none => rfl
  | some q =>
    by_cases hA : e.page = q.page ∧ rank e.level < rank q.level
    · have h1 : smooth (some q) e = e := by rw [smooth_some, if_pos hA]
      rw [h1]; exact h1
    · by_cases hB : rank e.level > rank q.level + 1 ∧ q.level = .H1 ∧ e.level = .H3
      · have h1 : smooth (some q) e = { e with level := .H2 } := by
          rw [smooth_some, if_neg hA, if_pos hB]
        rw [h1, smooth_some]
        rw [if_neg (by simp [hB.2.1, rank]), if_neg (by simp [hB.2.1, rank])]
      · have h1 : smooth (some q) e = e := by rw [smooth_some, if_neg hA, if_neg hB]
        rw [h1, h1]

theorem dropDup_smooth (prev p : Option Entry) (e : Entry) :
    dropDup prev (smooth p e) = dropDup prev e := by
  cases prev <;> simp [dropDup, smooth_text, smooth_page]

/-- The output of the normalization loop is in normal form with respect to the
state it was started from. -/
theorem normAux_good (l : List Entry) : ∀ prev, goodFrom prev (normAux prev l) := by
  induction l with
  | nil => intro prev; simp [normAux, goodFrom]
  | cons e rest ih =>
    intro prev
    unfold normAux
    split
    · exact ih prev
    · rename_i hdrop
      refine ⟨?_, ?_, ih (some (smooth prev e))⟩
      · rw [dropDup_smooth]
        exact Bool.of_not_eq_true hdrop
      · exact smooth_idem prev e

/-- Lists in normal form pass through the normalization loop unchanged. -/
theorem normAux_of_good (l : List Entry) : ∀ prev, goodFrom prev l → normAux prev l = l := by
  induction l with
  | nil => intro prev _; rfl
  | cons e rest ih =>
    intro prev h
    obtain ⟨h1, h2, h3⟩ := h
    unfold normAux
    rw [if_neg (by simp [h1])]
    show smooth prev e :: normAux (some (smooth prev e)) rest = e :: rest
    rw [h2, ih (some e) h3]

/-- Every entry emitted by the normalization loop respects noSkip relative to the
previously appended entry: an H3 directly after an H1 is always demoted. -/
theorem normAux_chain (l : List Entry) :
    ∀ p : Entry, List.Chain noSkip p (normAux (some p) l) := by
  induction l with
  | nil => intro p; exact List.Chain.nil
  | cons e rest ih =>
    intro p
    unfold normAux
    split
    · exact ih p
    · show List.Chain noSkip p (smooth (some p) e :: normAux (some (smooth (some p) e)) rest)
      refine List.Chain.cons ?_ (ih _)
      rintro ⟨hp, he⟩
      by_cases hA : e.page = p.page ∧ rank e.level < rank p.level
      · rw [smooth_some, if_pos hA] at he
        rw [he, hp] at hA
        exact absurd hA.2 (by simp [rank])
      · by_cases hB : rank e.level > rank p.level + 1 ∧ p.level = .H1 ∧ e.level = .H3
        · rw [smooth_some, if_neg hA, if_pos hB] at he
          exact HLevel.noConfusion he
        · rw [smooth_some, if_neg hA, if_neg hB] at he
          exact hB ⟨by simp [he, hp, rank], hp, he⟩

/-- The normalized outline as a whole never contains an H1 entry immediately
followed by an H3 entry. -/
theorem normalize_chain (l : List Entry) : List.Chain' noSkip (normalize l) := by
  rw [normalize]
  induction l with
  | nil => exact trivial
  | cons e rest ih =>
    unfold normAux
    split
    · exact ih
    · show List.Chain noSkip (smooth none e) (normAux (some (smooth none e)) rest)
      exact normAux_chain rest (smooth none e)

/-- C7: The OutlineNormalizer is idempotent: applying the normalization
(consecutive (text, page) de-duplication followed by level-jump smoothing) to
its own output yields that output unchanged. -/
theorem outline_normalizer_idempotent (l : List Entry) :
    normalize (normalize l) = normalize l :=
  normAux_of_good (normAux none l) none (normAux_good l none)

/-- C1 counterexample: an H1 candidate immediately followed by an H3 candidate
on a different page is demoted to H2 by the OutlineNormalizer, contrary to the
claim that different-page sequences are left unchanged. -/
theorem c1_counterexample :
    normalize [⟨.H1, "Chapter", 1⟩, ⟨.H3, "Detail", 2⟩] =
      [⟨.H1, "Chapter", 1⟩, ⟨.H2, "Detail", 2⟩] := by decide

/-- C1 amended: for every pair of candidates H1 on page p1 immediately followed
by H3 on a different page p2, the normalizer still demotes the H3 to H2 — the
level-jump correction is applied regardless of the page. -/
theorem c1_amended (t1 t2 : String) (p1 p2 : ℤ) (hp1 : 1 ≤ p1) (hp2 : 1 ≤ p2)
    (hne : p1 ≠ p2) :
    normalize [⟨.H1, t1, p1⟩, ⟨.H3, t2, p2⟩] = [⟨.H1, t1, p1⟩, ⟨.H2, t2, p2⟩] := by
  have hb1 : dropDup none ⟨.H1, t1, p1⟩ = false := by
    simp only [dropDup, Bool.and_eq_false_iff]
    right
    simpa using (by omega : p1 ≠ -1)
  have hb2 : dropDup (some ⟨.H1, t1, p1⟩) ⟨.H3, t2, p2⟩ = false := by
    simp only [dropDup, Bool.and_eq_false_iff]
    right
    simpa using fun h => hne h.symm
  have hs2 : smooth (some ⟨.H1, t1, p1⟩) ⟨.H3, t2, p2⟩ = ⟨.H2, t2, p2⟩ := by
    rw [smooth_some]
    rw [if_neg (by rintro ⟨h, -⟩; exact hne h.symm)]
    rw [if_pos ⟨by simp [rank], rfl, rfl⟩]
  unfold normalize normAux
  rw [if_neg (by simp [hb1])]
  show smooth none _ :: normAux _ _ = _
  rw [smooth_none]
  unfold normAux
  rw [if_neg (by simp [hb2])]
  show _ :: (smooth _ _ :: normAux _ _) = _
  rw [hs2]
  rfl

theorem c1_amended_witness :
    (1 : ℤ) ≤ 1 ∧ (1 : ℤ) ≤ 2 ∧ (1 : ℤ) ≠ 2 ∧
      normalize [⟨.H1, "Intro", 1⟩, ⟨.H3, "Sub", 2⟩] =
        [⟨.H1, "Intro", 1⟩, ⟨.H2, "Sub", 2⟩] :=
  by
  refine ⟨by decide, by decide, by decide, ?_⟩
  exact c1_amended _ _ 1 2 (by decide) (by decide) (by decide)

theorem FMInv.init (sig : List ℤ) (ex : Option ℤ) :
    FMInv sig ex ⟨[], none, none, none⟩ := by
  refine ⟨?_, ?_, ?_, ?_, ?_, ?_, ?_, ?_, ?_, ?_⟩ <;> simp

theorem FMInv.assignH1 {sig : List ℤ} {ex : Option ℤ} {st : FMState} {fs : ℤ}
    (inv : FMInv sig ex st) (hnone : st.h1 = none) (hsig : fs ∈ sig)
    (hexcl : excludedSize ex fs = false) :
    FMInv sig ex { st with map := st.map ++ [(fs, HLevel.H1)], h1 := some fs } := by
  refine ⟨?_, ?_, ?_, ?_, ?_, ?_, ?_, ?_, ?_, ?_⟩
  · intro k hk
    rcases List.mem_append.1 hk with h | h
    · exact absurd (inv.mem_h1 k h) (by simp [hnone])
    · simp only [List.mem_singleton, Prod.mk.injEq] at h
      simp [h.1]
  · intro k hk
    rcases List.mem_append.1 hk with h | h
    · exact inv.mem_h2 k h
    · simp at h
  · intro k hk
    rcases List.mem_append.1 hk with h | h
    · exact inv.mem_h3 k h
    · simp at h
  · intro a ha
    simp only [Option.some.injEq] at ha
    exact List.mem_append_right _ (by simp [ha])
  · intro h
    simp at h
  · exact fun h => inv.h3_of_h2 h
  · intro a b _ hb
    rw [inv.h2_of_h1 hnone] at hb
    exact absurd hb (by simp)
  · exact fun b c hb hc => inv.lt_23 b c hb hc
  · intro k l hk
    rcases List.mem_append.1 hk with h | h
    · exact inv.key_sig k l h
    · simp only [List.mem_singleton, Prod.mk.injEq] at h
      rw [h.1]; exact hsig
  · intro k l hk
    rcases List.mem_append.1 hk with h | h
    · exact inv.key_excl k l h
    · simp only [List.mem_singleton, Prod.mk.injEq] at h
      rw [h.1]; exact hexcl

theorem FMInv.assignH2 {sig : List ℤ} {ex : Option ℤ} {st : FMState} {fs a : ℤ}
    (inv : FMInv sig ex st) (hnone : st.h2 = none) (ha : st.h1 = some a)
    (hlt : fs < a) (hsig : fs ∈ sig) (hexcl : excludedSize ex fs = false) :
    FMInv sig ex { st with map := st.map ++ [(fs, HLevel.H2)], h2 := some fs } := by
  refine ⟨?_, ?_, ?_, ?_, ?_, ?_, ?_, ?_, ?_, ?_⟩
  · intro k hk
    rcases List.mem_append.1 hk with h | h
    · exact inv.mem_h1 k h
    · simp at h
  · intro k hk
    rcases List.mem_append.1 hk with h | h
    · exact absurd (inv.mem_h2 k h) (by simp [hnone])
    · simp only [List.mem_singleton, Prod.mk.injEq] at h
      simp [h.1]
  · intro k hk
    rcases List.mem_append.1 hk with h | h
    · exact inv.mem_h3 k h
    · simp at h
  · intro b hb
    exact List.mem_append_left _ (inv.h1_mem b hb)
  · intro h
    rw [h] at ha
    exact absurd ha (by simp)
  · intro h
    simp at h
  · intro a' b ha' hb
    simp only [Option.some.injEq] at hb
    have : a' = a := by rw [ha] at ha'; exact (Option.some.injEq _ _ ▸ ha').symm
    omega
  · intro b c hb hc
    rw [inv.h3_of_h2 hnone] at hc
    exact absurd hc (by simp)
  · intro k l hk
    rcases List.mem_append.1 hk with h | h
    · exact inv.key_sig k l h
    · simp only [List.mem_singleton, Prod.mk.injEq] at h
      rw [h.1]; exact hsig
  · intro k l hk
    rcases List.mem_append.1 hk with h | h
    · exact inv.key_excl k l h
    · simp only [List.mem_singleton, Prod.mk.injEq] at h
      rw [h.1]; exact hexcl

theorem FMInv.assignH3 {sig : List ℤ} {ex : Option ℤ} {st : FMState} {fs b : ℤ}
    (inv : FMInv sig ex st) (hnone : st.h3 = none) (hb : st.h2 = some b)
    (hlt : fs < b) (hsig : fs ∈ sig) (hexcl : excludedSize ex fs = false) :
    FMInv sig ex { st with map := st.map ++ [(fs, HLevel.H3)], h3 := some fs } := by
  refine ⟨?_, ?_, ?_, ?_, ?_, ?_, ?_, ?_, ?_, ?_⟩
  · intro k hk
    rcases List.mem_append.1 hk with h | h
    · exact inv.mem_h1 k h
    · simp at h
  · intro k hk
    rcases List.mem_append.1 hk with h | h
    · exact inv.mem_h2 k h
    · simp at h
  · intro k hk
    rcases List.mem_append.1 hk with h | h
    · exact absurd (inv.mem_h3 k h) (by simp [hnone])
    · simp only [List.mem_singleton, Prod.mk.injEq] at h
      simp [h.1]
  · intro a ha
    exact List.mem_append_left _ (inv.h1_mem a ha)
  · exact fun h => inv.h2_of_h1 h
  · intro h
    rw [h] at hb
    exact absurd hb (by simp)
  · exact fun a' b' ha' hb' => inv.lt_12 a' b' ha' hb'
  · intro b' c hb' hc
    simp only [Option.some.injEq] at hc
    have : b' = b := by rw [hb] at hb'; exact (Option.some.injEq _ _ ▸ hb').symm
    omega
  · intro k l hk
    rcases List.mem_append.1 hk with h | h
    · exact inv.key_sig k l h
    · simp only [List.mem_singleton, Prod.mk.injEq] at h
      rw [h.1]; exact hsig
  · intro k l hk
    rcases List.mem_append.1 hk with h | h
    · exact inv.key_excl k l h
    · simp only [List.mem_singleton, Prod.mk.injEq] at h
      rw [h.1]; exact hexcl

theorem fmStep_inv {sig : List ℤ} {ex : Option ℤ} {st : FMState} {fs : ℤ}
    (inv : FMInv sig ex st) (hsig : fs ∈ sig)
    (hexcl : excludedSize ex fs = false) : FMInv sig ex (fmStep fs st) := by
  unfold fmStep
  split_ifs with h1 h2 h3
  · exact inv.assignH1 (Option.isNone_iff_eq_none.1 h1) hsig hexcl
  · obtain ⟨a, ha⟩ : ∃ a, st.h1 = some a := by
      cases hc : st.h1 with
      | none => exact absurd (by simp [hc]) h1
      | some v => exact ⟨v, rfl⟩
    have hlt : fs < a := by
      have h22 := h2.2
      rw [ha] at h22
      simp only [Option.getD_some] at h22
      omega
    exact inv.assignH2 (Option.isNone_iff_eq_none.1 h2.1) ha hlt hsig hexcl
  · obtain ⟨b, hb⟩ : ∃ b, st.h2 = some b := by
      cases hc : st.h2 with
      | none => exact absurd (by simp [hc] : ¬st.h2.isSome = true) (by simp [h3.2.1])
      | some v => exact ⟨v, rfl⟩
    have hlt : fs < b := by
      have h33 := h3.2.2
      rw [hb] at h33
      simp only [Option.getD_some] at h33
      omega
    exact inv.assignH3 (Option.isNone_iff_eq_none.1 h3.1) hb hlt hsig hexcl
  · exact inv

theorem fmLoop_inv {sig : List ℤ} {ex : Option ℤ} :
    ∀ l : List ℤ, (∀ x ∈ l, x ∈ sig) → ∀ st, FMInv sig ex st →
      FMInv sig ex (fmLoop ex l st) := by
  intro l
  induction l with
  | nil => exact fun _ st inv => inv
  | cons fs rest ih =>
    intro hsub st inv
    unfold fmLoop
    split
    · exact ih (fun x hx => hsub x (List.mem_cons_of_mem _ hx)) st inv
    · rename_i hexcl
      have hstep := fmStep_inv inv (hsub fs (List.mem_cons_self _ _))
        (Bool.of_not_eq_true hexcl)
      show FMInv sig ex (if _ then fmStep fs st else fmLoop ex rest (fmStep fs st))
      split
      · exact hstep
      · exact ih (fun x hx => hsub x (List.mem_cons_of_mem _ hx)) _ hstep

theorem fbH1Go_inv {sig : List ℤ} {ex : Option ℤ} {st : FMState}
    (inv : FMInv sig ex st) (hnone : st.h1 = none) :
    ∀ l : List ℤ, (∀ x ∈ l, x ∈ sig) → FMInv sig ex (fbH1Go ex st l) := by
  intro l
  induction l with
  | nil => exact fun _ => inv
  | cons fs rest ih =>
    intro hsub
    unfold fbH1Go
    split
    · exact ih (fun x hx => hsub x (List.mem_cons_of_mem _ hx))
    · rename_i hexcl
      exact inv.assignH1 hnone (hsub fs (List.mem_cons_self _ _))
        (Bool.of_not_eq_true hexcl)

theorem fbH1_inv {sig : List ℤ} {ex : Option ℤ} {st : FMState}
    (inv : FMInv sig ex st) (hsub : ∀ x ∈ sig, x ∈ sig) :
    FMInv sig ex (fbH1 ex sig st) := by
  unfold fbH1
  split
  · rename_i h
    exact fbH1Go_inv inv (Option.isNone_iff_eq_none.1 h) sig hsub
  · exact inv

theorem fbH2Go_inv {sig : List ℤ} {ex : Option ℤ} {st : FMState} {a : ℤ}
    (inv : FMInv sig ex st) (hnone : st.h2 = none) (ha : st.h1 = some a) :
    ∀ l : List ℤ, (∀ x ∈ l, x ∈ sig) → FMInv sig ex (fbH2Go ex st l) := by
  intro l
  induction l with
  | nil => exact fun _ => inv
  | cons fs rest ih =>
    intro hsub
    unfold fbH2Go
    split
    · exact ih (fun x hx => hsub x (List.mem_cons_of_mem _ hx))
    · rename_i hskip
      push_neg at hskip
      split
      · rename_i hlt
        rw [ha] at hlt
        simp only [Option.getD_some] at hlt
        exact inv.assignH2 hnone ha hlt (hsub fs (List.mem_cons_self _ _))
          (by simpa using hskip.2)
      · exact ih (fun x hx => hsub x (List.mem_cons_of_mem _ hx))

theorem fbH2_inv {sig : List ℤ} {ex : Option ℤ} {st : FMState}
    (inv : FMInv sig ex st) : FMInv sig ex (fbH2 ex sig st) := by
  unfold fbH2
  split
  · rename_i h
    obtain ⟨a, ha⟩ : ∃ a, st.h1 = some a := by
      cases hc : st.h1 with
      | none => exact absurd (by simp [hc] : ¬st.h1.isSome = true) (by simp [h.1])
      | some v => exact ⟨v, rfl⟩
    exact fbH2Go_inv inv (Option.isNone_iff_eq_none.1 h.2) ha sig (fun x hx => hx)
  · exact inv

theorem fbH3Go_inv {sig : List ℤ} {ex : Option ℤ} {st : FMState} {b : ℤ}
    (inv : FMInv sig ex st) (hnone : st.h3 = none) (hb : st.h2 = some b) :
    ∀ l : List ℤ, (∀ x ∈ l, x ∈ sig) → FMInv sig ex (fbH3Go ex st l) := by
  intro l
  induction l with
  | nil => exact fun _ => inv
  | cons fs rest ih =>
    intro hsub
    unfold fbH3Go
    split
    · exact ih (fun x hx => hsub x (List.mem_cons_of_mem _ hx))
    · rename_i hskip
      push_neg at hskip
      split
      · rename_i hlt
        rw [hb] at hlt
        simp only [Option.getD_some] at hlt
        exact inv.assignH3 hnone hb hlt (hsub fs (List.mem_cons_self _ _))
          (by simpa using hskip.2.2)
      · exact ih (fun x hx => hsub x (List.mem_cons_of_mem _ hx))

theorem fbH3_inv {sig : List ℤ} {ex : Option ℤ} {st : FMState}
    (inv : FMInv sig ex st) : FMInv sig ex (fbH3 ex sig st) := by
  unfold fbH3
  split
  · rename_i h
    obtain ⟨b, hb⟩ : ∃ b, st.h2 = some b := by
      cases hc : st.h2 with
      | none => exact absurd (by simp [hc] : ¬st.h2.isSome = true) (by simp [h.1])
      | some v => exact ⟨v, rfl⟩
    exact fbH3Go_inv inv (Option.isNone_iff_eq_none.1 h.2) hb sig (fun x hx => hx)
  · exact inv

/-- The invariant holds of the classifier's final state. -/
theorem fm_inv (sizes : List ℤ) (ex : Option ℤ) :
    FMInv (fmSig sizes) ex (fmFinal sizes ex) := by
  unfold fmFinal
  exact fbH3_inv (fbH2_inv (fbH1_inv
    (fmLoop_inv (fmSig sizes) (fun x hx => hx) _ (FMInv.init _ _)) (fun x hx => hx)))

theorem fmStep_h1_isSome (fs : ℤ) (st : FMState) : (fmStep fs st).h1.isSome := by
  have hne : ¬st.h1.isNone = true → st.h1.isSome = true := by
    intro h
    rw [Option.isSome_iff_ne_none]
    simpa [Option.isNone_iff_eq_none] using h
  unfold fmStep
  split_ifs with h1 h2 h3
  · simp
  · exact hne h1
  · exact hne h1
  · exact hne h1

theorem fmLoop_h1_isSome {ex : Option ℤ} :
    ∀ l : List ℤ, ∀ st : FMState,
      (st.h1.isSome ∨ ∃ fs ∈ l, excludedSize ex fs = false) →
      (fmLoop ex l st).h1.isSome := by
  intro l
  induction l with
  | nil =>
    intro st h
    rcases h with h | ⟨fs, hmem, _⟩
    · exact h
    · cases hmem
  | cons fs rest ih =>
    intro st h
    unfold fmLoop
    split
    · rename_i hexcl
      refine ih st ?_
      rcases h with h | ⟨g, hg, hgex⟩
      · exact Or.inl h
      · rcases List.mem_cons.1 hg with rfl | hg'
        · rw [hexcl] at hgex
          cases hgex
        · exact Or.inr ⟨g, hg', hgex⟩
    · show ((if _ then fmStep fs st else fmLoop ex rest (fmStep fs st)).h1).isSome
      split
      · exact fmStep_h1_isSome fs st
      · exact ih _ (Or.inl (fmStep_h1_isSome fs st))

theorem fbH1_h1_isSome {ex : Option ℤ} {sig : List ℤ} {st : FMState}
    (h : st.h1.isSome) : (fbH1 ex sig st).h1.isSome := by
  unfold fbH1
  split
  · rename_i hc
    simp [Option.isNone_iff_eq_none.1 hc] at h
  · exact h

theorem fbH2Go_h1 {ex : Option ℤ} {st : FMState} :
    ∀ l : List ℤ, (fbH2Go ex st l).h1 = st.h1 := by
  intro l
  induction l with
  | nil => rfl
  | cons fs rest ih =>
    unfold fbH2Go
    split
    · exact ih
    · split
      · rfl
      · exact ih

theorem fbH2_h1 {ex : Option ℤ} {sig : List ℤ} {st : FMState} :
    (fbH2 ex sig st).h1 = st.h1 := by
  unfold fbH2
  split
  · exact fbH2Go_h1 sig
  · rfl

theorem fbH3Go_h1 {ex : Option ℤ} {st : FMState} :
    ∀ l : List ℤ, (fbH3Go ex st l).h1 = st.h1 := by
  intro l
  induction l with
  | nil => rfl
  | cons fs rest ih =>
    unfold fbH3Go
    split
    · exact ih
    · split
      · rfl
      · exact ih

theorem fbH3_h1 {ex : Option ℤ} {sig : List ℤ} {st : FMState} :
    (fbH3 ex sig st).h1 = st.h1 := by
  unfold fbH3
  split
  · exact fbH3Go_h1 sig
  · rfl

theorem mem_uniqFirstAux {a : ℤ} :
    ∀ l seen : List ℤ, a ∈ l → a ∈ seen ∨ a ∈ uniqFirstAux seen l := by
  intro l
  induction l with
  | nil => intro seen h; cases h
  | cons x xs ih =>
    intro seen h
    unfold uniqFirstAux
    split
    · rename_i hx
      rcases List.mem_cons.1 h with rfl | h'
      · exact Or.inl hx
      · exact ih seen h'
    · rcases List.mem_cons.1 h with rfl | h'
      · exact Or.inr (List.mem_cons_self _ _)
      · rcases ih (x :: seen) h' with hs | hu
        · rcases List.mem_cons.1 hs with rfl | hs'
          · exact Or.inr (List.mem_cons_self _ _)
          · exact Or.inl hs'
        · exact Or.inr (List.mem_cons_of_mem _ hu)

theorem mem_uniqFirst {a : ℤ} {l : List ℤ} (h : a ∈ l) : a ∈ uniqFirst l := by
  rcases mem_uniqFirstAux l [] h with hs | hu
  · cases hs
  · exact hu

theorem mem_fmSig {sizes : List ℤ} {s : ℤ} (hs : s ∈ sizes) (h10 : 1000 ≤ s) :
    s ∈ fmSig sizes := by
  refine List.mem_filter.2 ⟨?_, by simpa using h10⟩
  exact (List.perm_insertionSort _ _).mem_iff.2 (mem_uniqFirst hs)

/-- C5: for every input list of font sizes and any excluded size, the size
mapped to H1 is strictly greater than the size mapped to H2, which is
strictly greater than the size mapped to H3, whenever those levels are
assigned, and no size below 10.0pt (1000 hundredths of a point) is ever a
key of the map. -/
theorem font_map_strictly_ordered (sizes : List ℤ) (ex : Option ℤ) :
    (∀ a b, (a, HLevel.H1) ∈ determine_heading_font_map sizes ex →
      (b, HLevel.H2) ∈ determine_heading_font_map sizes ex → b < a) ∧
    (∀ b c, (b, HLevel.H2) ∈ determine_heading_font_map sizes ex →
      (c, HLevel.H3) ∈ determine_heading_font_map sizes ex → c < b) ∧
    (∀ k l, (k, l) ∈ determine_heading_font_map sizes ex → 1000 ≤ k) := by
  unfold determine_heading_font_map
  split
  · exact ⟨fun a b h => absurd h (List.not_mem_nil _),
           fun b c h => absurd h (List.not_mem_nil _),
           fun k l h => absurd h (List.not_mem_nil _)⟩
  · have inv := fm_inv sizes ex
    refine ⟨?_, ?_, ?_⟩
    · intro a b ha hb
      exact inv.lt_12 a b (inv.mem_h1 a ha) (inv.mem_h2 b hb)
    · intro b c hb hc
      exact inv.lt_23 b c (inv.mem_h2 b hb) (inv.mem_h3 c hc)
    · intro k l hk
      have hsig := inv.key_sig k l hk
      have hf := List.mem_filter.1 hsig
      simpa using hf.2

theorem font_map_strictly_ordered_witness :
    (1300 : ℤ) < 1600 ∧ (1100 : ℤ) < 1300 ∧ (1000 : ℤ) ≤ 1600 := by
  have h := font_map_strictly_ordered [1600, 1300, 1100] none
  exact ⟨h.1 1600 1300 (by decide) (by decide),
         h.2.1 1300 1100 (by decide) (by decide),
         h.2.2 1600 HLevel.H1 (by decide)⟩

/-- C6: when a detected title font size is excluded, no size within 0.1pt of
it (10 hundredths of a point; in particular the title size itself) is ever a
key of the map, including via the H1/H2/H3 fallback assignments. -/
theorem font_map_excludes_title (sizes : List ℤ) (t k : ℤ) (l : HLevel)
    (hk : (k, l) ∈ determine_heading_font_map sizes (some t)) :
    10 ≤ absZ (k - t) := by
  unfold determine_heading_font_map at hk
  split at hk
  · exact absurd hk (List.not_mem_nil _)
  · have h := (fm_inv sizes (some t)).key_excl k l hk
    unfold excludedSize at h
    exact Int.not_lt.1 (of_decide_eq_false h)

theorem font_map_excludes_title_witness : 10 ≤ absZ ((1600 : ℤ) - 1200) :=
  font_map_excludes_title [1600, 1200] 1200 1600 HLevel.H1 (by decide)

/-- C3 counterexample: with a single significant size of 16.0pt and an
excluded title size within 0.1pt of it (here equal to it), the resulting map
is empty even though a significant size exists, contrary to the claim. -/
theorem c3_counterexample :
    (1000 : ℤ) ≤ 1600 ∧ determine_heading_font_map [1600] (some 1600) = [] :=
  ⟨by decide, by decide⟩

/-- C3 amended: the map is non-empty whenever some observed size is at least
10pt and survives the title exclusion, that is, lies at least 0.1pt away from
the excluded size or there is no excluded size. -/
theorem font_map_nonempty (sizes : List ℤ) (ex : Option ℤ) (s : ℤ)
    (hs : s ∈ sizes) (h10 : 1000 ≤ s) (hex : excludedSize ex s = false) :
    determine_heading_font_map sizes ex ≠ [] := by
  have hsig : s ∈ fmSig sizes := mem_fmSig hs h10
  have hne : ¬(fmSig sizes).isEmpty = true := by
    cases h : fmSig sizes with
    | nil => rw [h] at hsig; cases hsig
    | cons a l => simp [h]
  rw [determine_heading_font_map, if_neg hne]
  have hl : (fmLoop ex (fmSig sizes) ⟨[], none, none, none⟩).h1.isSome :=
    fmLoop_h1_isSome (fmSig sizes) _ (Or.inr ⟨s, hsig, hex⟩)
  have hf : (fmFinal sizes ex).h1.isSome := by
    unfold fmFinal
    rw [fbH3_h1, fbH2_h1]
    exact fbH1_h1_isSome hl
  obtain ⟨a, ha⟩ := Option.isSome_iff_exists.1 hf
  exact List.ne_nil_of_mem ((fm_inv sizes ex).h1_mem a ha)

theorem font_map_nonempty_witness :
    determine_heading_font_map [1600] none ≠ [] :=
  font_map_nonempty [1600] none 1600 (by decide) (by decide) (by decide)

/-- C9: the final outline returned by identify_headings never contains an
entry labeled H1 immediately followed by an entry labeled H3 — the smoothing
demotes such a follower to H2 regardless of whether the two entries are on
the same page. -/
theorem no_h1_then_h3 (map : List (ℤ × HLevel)) (pages : List (List Span)) :
    List.Chain' noSkip (identify_headings map pages) :=
  normalize_chain _

/-- C2 counterexample: a document whose source cannot be opened or parsed is
not skipped: extraction degrades to an empty page list, processing
continues, and the batch writes an output artifact for it — the default
title with an empty outline — contrary to the claim that no artifact at all
is written. -/
theorem c2_counterexample :
    process_pdf SourceResult.openError = ⟨"Untitled Document", []⟩ ∧
    mainBatch [SourceResult.openError] = [⟨"Untitled Document", []⟩] :=
  ⟨by decide, by decide⟩

/-- C2 amended: open errors are logged and the batch continues with the
remaining documents, but the failed document is not skipped: every listed
document yields exactly one output artifact, and a failed document's
artifact is the default title with an empty outline. -/
theorem batch_writes_artifact_for_open_error (docs : List SourceResult) :
    (mainBatch docs).length = docs.length ∧
    ∀ r ∈ docs, r = SourceResult.openError →
      process_pdf r = ⟨"Untitled Document", []⟩ := by
  refine ⟨by simp [mainBatch], ?_⟩
  intro r _ hr
  rw [hr]
  decide

theorem batch_writes_artifact_for_open_error_witness :
    (mainBatch [SourceResult.openError]).length = 1 ∧
    process_pdf SourceResult.openError = ⟨"Untitled Document", []⟩ := by
  have h := batch_writes_artifact_for_open_error [SourceResult.openError]
  exact ⟨h.1, h.2 SourceResult.openError (by simp) rfl⟩

theorem boldPfxStage_fired (spans : List Span) (bullet : Bool) (st : LState)
    (pfx : List Char) (h : boldPfx spans = some pfx) :
    boldPfxStage spans bullet st =
      (if bullet then ⟨true, some .H3, ⟨pfx⟩⟩
       else if st.level.isNone || decide (rankO st.level > 2) then ⟨true, some .H2, ⟨pfx⟩⟩
       else ⟨true, st.level, ⟨pfx⟩⟩, true) := by
  unfold boldPfxStage
  rw [h]
  split_ifs <;> rfl

theorem colonStage_skip (fc : List Char) (st : LState) (h : st.potential = true) :
    colonStage fc st = (st, false) := by
  unfold colonStage
  rw [if_pos h]

theorem keywordStage_skip (tl : List Char) (full : String) (anyB anyI : Bool)
    (words : ℕ) (st : LState) (h : st.potential = true) :
    keywordStage tl full anyB anyI words st = (st, false) := by
  unfold keywordStage
  rw [if_pos h]

theorem bulletLookahead_nobullet (spans : List Span) (next : Option (List Span))
    (mc : ℤ) (st : LState) : bulletLookahead false spans next mc st = st := rfl

theorem classifyLine_of_nonempty (map : List (ℤ × HLevel)) (tl : String)
    (spans : List Span) (next : Option (List Span))
    (hfull : (fullLineText spans == "") = false) :
    classifyLine map tl spans next =
      (match (lineStage8 map tl spans next).level with
       | some lvl =>
         if (lineStage8 map tl spans next).potential then
           some ⟨lvl, (lineStage8 map tl spans next).text, headPage spans⟩
         else none
       | none => none) := by
  unfold classifyLine
  rw [if_neg (by simp [hfull])]

/-- Variant of boldPfxStage_fired for a line with no bullet prefix. -/
theorem boldPfxStage_fired_nobullet (spans : List Span) (st : LState)
    (pfx : List Char) (h : boldPfx spans = some pfx) :
    boldPfxStage spans false st =
      (if st.level.isNone || decide (rankO st.level > 2) then ⟨true, some .H2, ⟨pfx⟩⟩
       else ⟨true, st.level, ⟨pfx⟩⟩, true) := by
  have hg := boldPfxStage_fired spans false st pfx h
  simpa using hg

/-- C4 amended: when the bold-prefix-colon rule fires on a line that is not
bullet-prefixed, the bold run becomes the display text, the level defaults
to H2 unless a stronger level was already set by steps 1-3, the step-7
acceptance filters are skipped, the step-8 bullet-lookahead demotion does
not reject the line, and the line is accepted.  (When the line IS
bullet-prefixed, the rule forces level H3 and step 8 can still reject it:
see the counterexample.) -/
theorem bold_prefix_rule (map : List (ℤ × HLevel)) (tl : String) (spans : List Span)
    (next : Option (List Span)) (pfx : List Char)
    (hfull : (fullLineText spans == "") = false)
    (hnb : bulletMatch (fullLineText spans).data = false)
    (hbp : boldPfx spans = some pfx) :
    classifyLine map tl spans next =
      some ⟨if (preBoldState map spans).level.isNone ||
              decide (rankO (preBoldState map spans).level > 2)
            then HLevel.H2 else (preBoldState map spans).level.getD HLevel.H2,
            ⟨pfx⟩, headPage spans⟩ := by
  have hP4 : boldPfxPair map spans =
      (if (preBoldState map spans).level.isNone ||
          decide (rankO (preBoldState map spans).level > 2)
       then ⟨true, some .H2, ⟨pfx⟩⟩
       else ⟨true, (preBoldState map spans).level, ⟨pfx⟩⟩, true) := by
    unfold boldPfxPair
    rw [hnb]
    exact boldPfxStage_fired_nobullet spans (preBoldState map spans) pfx hbp
  have hSpot :
      (if (preBoldState map spans).level.isNone ||
          decide (rankO (preBoldState map spans).level > 2)
       then (⟨true, some .H2, ⟨pfx⟩⟩ : LState)
       else ⟨true, (preBoldState map spans).level, ⟨pfx⟩⟩).potential = true := by
    split_ifs <;> rfl
  have hP5 : colonPair map spans =
      (if (preBoldState map spans).level.isNone ||
          decide (rankO (preBoldState map spans).level > 2)
       then ⟨true, some .H2, ⟨pfx⟩⟩
       else ⟨true, (preBoldState map spans).level, ⟨pfx⟩⟩, false) := by
    unfold colonPair
    rw [hP4]
    exact colonStage_skip _ _ hSpot
  have hP6 : keywordPair map tl spans =
      (if (preBoldState map spans).level.isNone ||
          decide (rankO (preBoldState map spans).level > 2)
       then ⟨true, some .H2, ⟨pfx⟩⟩
       else ⟨true, (preBoldState map spans).level, ⟨pfx⟩⟩, false) := by
    unfold keywordPair
    rw [hP5]
    exact keywordStage_skip _ _ _ _ _ _ hSpot
  have h7 : lineStage7 map tl spans next =
      (if (preBoldState map spans).level.isNone ||
          decide (rankO (preBoldState map spans).level > 2)
       then ⟨true, some .H2, ⟨pfx⟩⟩
       else ⟨true, (preBoldState map spans).level, ⟨pfx⟩⟩) := by
    unfold lineStage7 lineStage6
    rw [hP4, hP5, hP6, hnb]
    simp only [hSpot, if_true, Bool.true_or, bulletLookahead_nobullet]
  have h8 : lineStage8 map tl spans next =
      (if (preBoldState map spans).level.isNone ||
          decide (rankO (preBoldState map spans).level > 2)
       then ⟨true, some .H2, ⟨pfx⟩⟩
       else ⟨true, (preBoldState map spans).level, ⟨pfx⟩⟩) := by
    unfold lineStage8
    rw [h7]
    simp only [hSpot, Bool.not_true, Bool.false_and, Bool.false_eq_true, if_false]
  rw [classifyLine_of_nonempty map tl spans next hfull, h8]
  by_cases hcond : ((preBoldState map spans).level.isNone ||
      decide (rankO (preBoldState map spans).level > 2)) = true
  · rw [if_pos hcond, if_pos hcond]
    rfl
  · rw [if_neg hcond, if_neg hcond]
    cases hl : (preBoldState map spans).level with
    | none => simp [hl] at hcond
    | some lvl => rfl

/-- C4 counterexample: on this line the bold-prefix-colon rule fires (the
line's bold prefix ends in a colon and is followed by a non-bold span) and
the line is bullet-prefixed, so the rule forces level H3 — and then the
step-8 bullet-lookahead demotion, which runs before the step-7 skip at line
371, rejects it for being longer than 60 characters: the final outline is
empty, contradicting the claim that step 8 never rejects a line on which
the rule fired. -/
theorem c4_counterexample :
    (boldPfx [bulletColonSpan, bulletBodySpan]).isSome = true ∧
    bulletMatch (fullLineText [bulletColonSpan, bulletBodySpan]).data = true ∧
    identify_headings [] [[bulletColonSpan, bulletBodySpan]] = [] :=
  ⟨by decide, by decide, by decide⟩

theorem bold_prefix_rule_witness :
    classifyLine [] "" [boldColonSpan, plainRestSpan] none =
      some ⟨HLevel.H2, "Background:", 1⟩ := by
  have h := bold_prefix_rule [] "" [boldColonSpan, plainRestSpan] none
    ("Background:").data (by decide) (by decide) (by decide)
  exact h.trans (by decide)

theorem bulletStage_pot (st : LState) : (bulletStage true st).potential = true := by
  unfold bulletStage
  rw [if_pos rfl]
  split_ifs <;> rfl

theorem boldPfxStage_pot (spans : List Span) (b : Bool) (st : LState)
    (h : st.potential = true) : (boldPfxStage spans b st).1.potential = true := by
  unfold boldPfxStage
  cases hm : boldPfx spans with
  | none => exact h
  | some pfx => split_ifs <;> rfl

theorem colonStage_pot (fc : List Char) (st : LState) (h : st.potential = true) :
    (colonStage fc st).1.potential = true := by
  rw [colonStage_skip fc st h]
  exact h

/-- C8 amended: the keyword rule accepts a line as an H3 heading with the
full line text retained when: the text the patterns are actually matched
against — the lowercased text of the page's LAST raw element, read through
the stale text_lower variable — matches one of the keyword patterns, whose
keywords are spelled as in the source (in particular the ligature form
deﬁnition rather than ASCII definition); the line is bold, italic or under
15 words; and no earlier rule fired on the line. -/
theorem keyword_rule (map : List (ℤ × HLevel)) (tl : String) (spans : List Span)
    (next : Option (List Span))
    (hfull : (fullLineText spans == "") = false)
    (hnot : (colonPair map spans).1.potential = false)
    (hkw : kwMatches tl.data = true)
    (hgate : (spans.any (fun s => s.is_bold) || spans.any (fun s => s.is_italic) ||
        decide (wordCount (fullLineText spans) < 15)) = true) :
    classifyLine map tl spans next =
      some ⟨HLevel.H3, fullLineText spans, headPage spans⟩ := by
  have hbul : bulletMatch (fullLineText spans).data = false := by
    cases hcase : bulletMatch (fullLineText spans).data with
    | false => rfl
    | true =>
      exfalso
      have h3 : (preBoldState map spans).potential = true := by
        unfold preBoldState
        rw [hcase]
        exact bulletStage_pot _
      have h4 : (boldPfxPair map spans).1.potential = true := by
        unfold boldPfxPair
        exact boldPfxStage_pot _ _ _ h3
      have h5 : (colonPair map spans).1.potential = true := by
        unfold colonPair
        exact colonStage_pot _ _ h4
      rw [hnot] at h5
      cases h5
  have hkp : keywordPair map tl spans =
      (⟨true, some .H3, fullLineText spans⟩, true) := by
    unfold keywordPair keywordStage
    rw [if_neg (by simp [hnot])]
    rw [hkw, hgate]
    rfl
  have h7 : lineStage7 map tl spans next = ⟨true, some .H3, fullLineText spans⟩ := by
    unfold lineStage7 lineStage6
    rw [hkp, hbul]
    simp only [Bool.or_true, bulletLookahead_nobullet, if_true]
  have h8 : lineStage8 map tl spans next = ⟨true, some .H3, fullLineText spans⟩ := by
    unfold lineStage8
    rw [h7]
    rfl
  rw [classifyLine_of_nonempty map tl spans next hfull, h8]
  rfl

/-- C8 counterexample: this line begins with the ASCII keyword "definition"
followed by a numeric tag, is italic and under 15 words, and no earlier rule
fires — yet the classifier accepts nothing: the keyword regexes of lines
337-339 spell the keyword with the U+FB01 ligature, so the ASCII spelling
never matches and the outline is empty. -/
theorem c8_counterexample :
    startsWithChars (pyLower asciiDefinitionSpan.text).data asciiKeyword.data = true ∧
    asciiDefinitionSpan.is_italic = true ∧
    wordCount asciiDefinitionSpan.text < 15 ∧
    identify_headings [] [[asciiDefinitionSpan]] = [] :=
  ⟨by decide, by decide, by decide, by decide⟩

theorem keyword_rule_witness :
    classifyLine [] (pyLower ligatureDefinitionSpan.text) [ligatureDefinitionSpan] none =
      some ⟨HLevel.H3, "deﬁnition 2.4", 1⟩ := by
  have h := keyword_rule [] (pyLower ligatureDefinitionSpan.text)
    [ligatureDefinitionSpan] none (by decide) (by decide) (by decide) (by decide)
  exact h.trans (by decide)

theorem numericAlphaStage_text (l : List Char) (st : LState) :
    (numericAlphaStage l st).text = st.text := by
  unfold numericAlphaStage
  dsimp only
  repeat' split
  all_goals rfl

theorem bulletStage_text (b : Bool) (st : LState) : (bulletStage b st).text = st.text := by
  unfold bulletStage
  split
  · split
    · rfl
    · rfl
  · rfl

theorem boldScanAux_colon : ∀ (spans : List Span) (acc pfx : List Char),
    boldScanAux acc spans = some pfx → endsWithChar ':' pfx = true := by
  intro spans
  induction spans with
  | nil => intro acc pfx h; exact Option.noConfusion h
  | cons s rest ih =>
    intro acc pfx h
    unfold boldScanAux at h
    dsimp only at h
    split at h
    · split at h
      · rename_i hcolon
        split at h
        · cases h
          exact hcolon
        · split at h
          · exact ih _ _ h
          · cases h
            exact hcolon
      · exact ih _ _ h
    · cases h

theorem boldPfx_colon (spans : List Span) (pfx : List Char)
    (h : boldPfx spans = some pfx) : endsWithChar ':' pfx = true := by
  unfold boldPfx at h
  split at h
  · cases h
  · split at h
    · exact boldScanAux_colon _ _ _ h
    · cases h

theorem ne_empty_of_endsWithColon (pfx : List Char) (h : endsWithChar ':' pfx = true) :
    (⟨pfx⟩ : String) ≠ "" := by
  intro hcon
  have hdata : pfx = [] := by
    have := congrArg String.data hcon
    simpa using this
  rw [hdata] at h
  simp [endsWithChar, List.getLast?] at h

theorem boldPfxStage_text_ne (spans : List Span) (b : Bool) (st : LState)
    (hst : st.text ≠ "") : (boldPfxStage spans b st).1.text ≠ "" := by
  unfold boldPfxStage
  cases hm : boldPfx spans with
  | none => exact hst
  | some pfx =>
    have hne := ne_empty_of_endsWithColon pfx (boldPfx_colon spans pfx hm)
    split_ifs <;> exact hne

theorem colonStage_text_ne (fc : List Char) (st : LState) (hst : st.text ≠ "") :
    (colonStage fc st).1.text ≠ "" := by
  unfold colonStage
  dsimp only
  repeat' split
  all_goals
    first
      | exact hst
      | (intro hcon
         have hdata := congrArg String.data hcon
         simp at hdata)

theorem keywordStage_text_ne (tl : List Char) (full : String) (anyB anyI : Bool)
    (words : ℕ) (st : LState) (hfull : full ≠ "") (hst : st.text ≠ "") :
    (keywordStage tl full anyB anyI words st).1.text ≠ "" := by
  unfold keywordStage
  split
  · exact hst
  · split
    · exact hfull
    · exact hst

theorem bulletLookahead_text (b : Bool) (spans : List Span) (next : Option (List Span))
    (mc : ℤ) (st : LState) : (bulletLookahead b spans next mc st).text = st.text := by
  unfold bulletLookahead
  dsimp only
  repeat' split
  all_goals rfl

theorem acceptFilter_text (anyB numgB alpha bullet : Bool) (mc : ℤ) (st : LState) :
    (acceptFilter anyB numgB alpha bullet mc st).text = st.text := by
  unfold acceptFilter
  dsimp only
  repeat' split
  all_goals rfl

theorem pyStripChars_nil_iff (l : List Char) :
    pyStripChars l = [] ↔ ∀ c ∈ l, isPySpace c = true := by
  unfold pyStripChars
  rw [List.reverse_eq_nil_iff, List.dropWhile_eq_nil_iff]
  constructor
  · intro h c hc
    have hsplit : c ∈ l.takeWhile isPySpace ++ l.dropWhile isPySpace := by
      rw [List.takeWhile_append_dropWhile]
      exact hc
    rcases List.mem_append.1 hsplit with h1 | h1
    · exact List.mem_takeWhile_imp h1
    · exact h c (List.mem_reverse.2 h1)
  · intro h c hc
    have h2 : c ∈ l.dropWhile isPySpace := List.mem_reverse.1 hc
    have h3 : c ∈ l.takeWhile isPySpace ++ l.dropWhile isPySpace :=
      List.mem_append_right _ h2
    rw [List.takeWhile_append_dropWhile] at h3
    exact h c h3

theorem stripped_has_nonspace (s : String) (hstrip : pyStrip s = s) (hne : s.data ≠ []) :
    ∃ c ∈ s.data, isPySpace c = false := by
  by_contra hall
  push_neg at hall
  have hall2 : ∀ c ∈ s.data, isPySpace c = true := by
    intro c hc
    cases hcase : isPySpace c with
    | false => exact absurd hcase (hall c hc)
    | true => rfl
  have hnil := (pyStripChars_nil_iff s.data).2 hall2
  apply hne
  have hd := congrArg String.data hstrip
  unfold pyStrip at hd
  simp only at hd
  rw [hnil] at hd
  exact hd.symm

theorem boldSegment_cons (s : Span) (rest : List Span) :
    boldSegment (s :: rest) =
      if s.is_bold then s.text.data ++ boldSegment rest else [] := rfl

theorem boldSegment_nonspace (spans : List Span)
    (hstrip : ∀ s ∈ spans, pyStrip s.text = s.text)
    (hne : boldSegment spans ≠ []) :
    ∃ c ∈ boldSegment spans, isPySpace c = false := by
  induction spans with
  | nil => exact absurd rfl hne
  | cons s rest ih =>
    by_cases hb : s.is_bold = true
    · have hseg : boldSegment (s :: rest) = s.text.data ++ boldSegment rest := by
        rw [boldSegment_cons, if_pos hb]
      rw [hseg] at hne ⊢
      by_cases hd : s.text.data = []
      · rw [hd] at hne ⊢
        simp only [List.nil_append] at hne ⊢
        exact ih (fun x hx => hstrip x (List.mem_cons_of_mem _ hx)) hne
      · obtain ⟨c, hc, hcs⟩ := stripped_has_nonspace s.text
          (hstrip s (List.mem_cons_self _ _)) hd
        exact ⟨c, List.mem_append_left _ hc, hcs⟩
    · have hseg : boldSegment (s :: rest) = [] := by
        rw [boldSegment_cons, if_neg hb]
      exact absurd hseg hne

theorem strip_boldSegment_ne (spans : List Span)
    (hstrip : ∀ s ∈ spans, pyStrip s.text = s.text)
    (hne : boldSegment spans ≠ []) :
    pyStripChars (boldSegment spans) ≠ [] := by
  intro hcon
  obtain ⟨c, hc, hcs⟩ := boldSegment_nonspace spans hstrip hne
  have hsp := (pyStripChars_nil_iff _).1 hcon c hc
  rw [hsp] at hcs
  cases hcs

theorem allBoldFallback_text_ne (spans : List Span) (fc : List Char) (bpm : Bool)
    (st : LState) (hstrip : ∀ s ∈ spans, pyStrip s.text = s.text)
    (hst : st.text ≠ "") : (allBoldFallback spans fc bpm st).text ≠ "" := by
  cases spans with
  | nil =>
    unfold allBoldFallback
    rw [if_pos (by rfl)]
    split
    · exact hst
    · split
      · exact hst
      · exact hst
  | cons s0 tail =>
    unfold allBoldFallback
    split
    · split
      · exact hst
      · split
        · exact hst
        · exact hst
    · split
      · dsimp only
        split
        · split
          · rename_i hcond
            simp only [Bool.and_eq_true] at hcond
            have hlen := of_decide_eq_true hcond.1.1.1
            have hnnil : boldSegment (s0 :: tail) ≠ [] := by
              intro hnil
              rw [hnil] at hlen
              simp at hlen
            intro hcon
            have hdata : pyStripChars (boldSegment (s0 :: tail)) = [] := by
              have h0 := congrArg String.data hcon
              simpa using h0
            exact strip_boldSegment_ne (s0 :: tail) hstrip hnnil hdata
          · exact hst
        · exact hst
      · exact hst

theorem lineStage8_text_ne (map : List (ℤ × HLevel)) (tl : String) (spans : List Span)
    (next : Option (List Span)) (hfull : fullLineText spans ≠ "")
    (hstrip : ∀ s ∈ spans, pyStrip s.text = s.text) :
    (lineStage8 map tl spans next).text ≠ "" := by
  have h3 : (preBoldState map spans).text = fullLineText spans := by
    unfold preBoldState
    rw [bulletStage_text, numericAlphaStage_text]
    rfl
  have h4 : (boldPfxPair map spans).1.text ≠ "" := by
    unfold boldPfxPair
    refine boldPfxStage_text_ne _ _ _ ?_
    rw [h3]
    exact hfull
  have h5 : (colonPair map spans).1.text ≠ "" := by
    unfold colonPair
    exact colonStage_text_ne _ _ h4
  have h6 : (keywordPair map tl spans).1.text ≠ "" := by
    unfold keywordPair
    exact keywordStage_text_ne _ _ _ _ _ _ hfull h5
  have h7 : (lineStage7 map tl spans next).text ≠ "" := by
    unfold lineStage7 lineStage6
    split
    · split
      · rw [bulletLookahead_text]
        exact h6
      · rw [acceptFilter_text, bulletLookahead_text]
        exact h6
    · exact h6
  unfold lineStage8
  split
  · exact allBoldFallback_text_ne _ _ _ _ hstrip h7
  · exact h7

theorem classifyLine_some (map : List (ℤ × HLevel)) (tl : String) (spans : List Span)
    (next : Option (List Span)) (e : Entry)
    (h : classifyLine map tl spans next = some e) :
    e.page = headPage spans ∧ e.text = (lineStage8 map tl spans next).text ∧
      fullLineText spans ≠ "" := by
  unfold classifyLine at h
  split at h
  · exact Option.noConfusion h
  · rename_i hne
    have hfull : fullLineText spans ≠ "" := by
      intro hcon
      exact hne (by rw [hcon]; rfl)
    dsimp only at h
    split at h
    · split at h
      · have he := Option.some.inj h
        rw [← he]
        exact ⟨rfl, rfl, hfull⟩
      · exact Option.noConfusion h
    · exact Option.noConfusion h

theorem fullLineText_nil : fullLineText [] = "" := rfl

theorem assembleAux_subset :
    ∀ (input : List Span) (curY : ℤ) (temp line : List Span),
      line ∈ assembleAux curY temp input → ∀ s ∈ line, s ∈ temp ∨ s ∈ input := by
  intro input
  induction input with
  | nil =>
    intro curY temp line hline s hs
    unfold assembleAux at hline
    split at hline
    · cases hline
    · rw [List.mem_singleton] at hline
      rw [hline] at hs
      exact Or.inl hs
  | cons e rest ih =>
    intro curY temp line hline s hs
    unfold assembleAux at hline
    split at hline
    · rcases List.mem_cons.1 hline with rfl | h2
      · exact Or.inl hs
      · rcases ih _ _ _ h2 s hs with h3 | h3
        · rw [List.mem_singleton] at h3
          rw [h3]
          exact Or.inr (List.mem_cons_self _ _)
        · exact Or.inr (List.mem_cons_of_mem _ h3)
    · rcases ih _ _ _ hline s hs with h3 | h3
      · rcases List.mem_append.1 h3 with h4 | h4
        · exact Or.inl h4
        · rw [List.mem_singleton] at h4
          rw [h4]
          exact Or.inr (List.mem_cons_self _ _)
      · exact Or.inr (List.mem_cons_of_mem _ h3)

theorem classifyLines_mem (map : List (ℤ × HLevel)) (tl : String) :
    ∀ (lines : List (List Span)) (e : Entry), e ∈ classifyLines map tl lines →
      ∃ l next, l ∈ lines ∧ classifyLine map tl l next = some e := by
  intro lines
  induction lines with
  | nil => intro e h; cases h
  | cons l rest ih =>
    intro e h
    unfold classifyLines at h
    split at h
    · rename_i e0 hm
      rcases List.mem_cons.1 h with rfl | h2
      · exact ⟨l, rest.head?, List.mem_cons_self _ _, hm⟩
      · obtain ⟨l2, nx, hl2, hc⟩ := ih _ h2
        exact ⟨l2, nx, List.mem_cons_of_mem _ hl2, hc⟩
    · obtain ⟨l2, nx, hl2, hc⟩ := ih _ h
      exact ⟨l2, nx, List.mem_cons_of_mem _ hl2, hc⟩

theorem classifyPage_mem (map : List (ℤ × HLevel)) (page : List Span) (e : Entry)
    (h : e ∈ classifyPage map page) :
    ∃ l next, (∀ s ∈ l, s ∈ page) ∧
      classifyLine map (pyLower (lastSpanText page)) l next = some e := by
  unfold classifyPage at h
  split at h
  · cases h
  · obtain ⟨l, nx, hl, hc⟩ := classifyLines_mem _ _ _ _ h
    refine ⟨l, nx, ?_, hc⟩
    intro s hs
    rcases assembleAux_subset _ _ _ _ hl s hs with h1 | h1
    · cases h1
    · exact (List.mem_filter.1 h1).1

theorem normAux_mem :
    ∀ (l : List Entry) (prev : Option Entry) (e : Entry), e ∈ normAux prev l →
      ∃ e2 ∈ l, e.text = e2.text ∧ e.page = e2.page := by
  intro l
  induction l with
  | nil => intro prev e h; cases h
  | cons hd rest ih =>
    intro prev e h
    unfold normAux at h
    split at h
    · obtain ⟨e2, he2, h1, h2⟩ := ih _ _ h
      exact ⟨e2, List.mem_cons_of_mem _ he2, h1, h2⟩
    · have h' : e ∈ smooth prev hd :: normAux (some (smooth prev hd)) rest := h
      rcases List.mem_cons.1 h' with rfl | h2
      · exact ⟨hd, List.mem_cons_self _ _, smooth_text _ _, smooth_page _ _⟩
      · obtain ⟨e2, he2, h1, h2⟩ := ih _ _ h2
        exact ⟨e2, List.mem_cons_of_mem _ he2, h1, h2⟩

/-- C10: every entry the classifier appends carries the page of its line's
first span, and every entry of the final outline of identify_headings has a
non-empty text and a page of at least 1 whenever the spans are
extractor-produced (stripped text, 1-based pages); the level is one of H1,
H2, H3 by the type of the entries. -/
theorem outline_wellformed (map : List (ℤ × HLevel)) (pages : List (List Span))
    (hwf : ∀ page ∈ pages, ∀ s ∈ page, pyStrip s.text = s.text ∧ 1 ≤ s.page) :
    (∀ tl spans next e, classifyLine map tl spans next = some e →
      e.page = headPage spans) ∧
    ∀ e ∈ identify_headings map pages, e.text ≠ "" ∧ 1 ≤ e.page := by
  constructor
  · intro tl spans next e h
    exact (classifyLine_some map tl spans next e h).1
  · intro e he
    unfold identify_headings normalize at he
    obtain ⟨e2, he2, htext, hpage⟩ := normAux_mem _ none e he
    rw [List.mem_flatten] at he2
    obtain ⟨grp, hgrp, he2g⟩ := he2.imp (fun _ h => h)
    obtain ⟨page, hpagemem, rfl⟩ := List.mem_map.1 hgrp
    obtain ⟨l, nx, hsub, hc⟩ := classifyPage_mem map page e2 he2g
    obtain ⟨hp, ht, hfull⟩ := classifyLine_some _ _ _ _ _ hc
    have hstrip : ∀ s ∈ l, pyStrip s.text = s.text :=
      fun s hs => (hwf page hpagemem s (hsub s hs)).1
    have htne : e2.text ≠ "" := by
      rw [ht]
      exact lineStage8_text_ne map _ l nx hfull hstrip
    have hlne : l ≠ [] := by
      intro hcon
      rw [hcon] at hfull
      exact hfull fullLineText_nil
    have hp2 : 1 ≤ e2.page := by
      rw [hp]
      cases l with
      | nil => exact absurd rfl hlne
      | cons s0 r => exact (hwf page hpagemem s0 (hsub s0 (List.mem_cons_self _ _))).2
    constructor
    · rw [htext]
      exact htne
    · rw [hpage]
      exact hp2

theorem outline_wellformed_witness :
    ("Background:" : String) ≠ "" ∧ (1 : ℤ) ≤ 1 := by
  have h := outline_wellformed [] [[boldColonSpan, plainRestSpan]] (by decide)
  exact h.2 ⟨.H2, "Background:", 1⟩ (by decide)
